import Mathlib

/-!
Shallow embedding of the trading-simulation engine of
`src/annual-trading-results.tsx` (the `useEffect` simulation body,
lines 41-298), together with the calendar generator `generateDates`
(lines 67-96).

Modelling conventions:
* JavaScript numbers are modelled by `JSNum`: either an exact rational
  (`JSNum.num`) or one of the IEEE special values `posInf`, `negInf`, `nan`.
  Equity and bucket arithmetic never leaves the rationals, so those fields
  are plain `ℚ`; the derived rates and the drawdown percentages go through
  JS division/multiplication and the truthiness-based `||` fallback, which
  are modelled exactly (`jsDiv`, `jsMul`, `jsGt`, `jsOr`).
* Dates are modelled at date-only precision as a day ordinal `z : ℕ` =
  days since 1970-01-01 (so `weekday z = (z + 4) % 7`, Sunday = 0, as in
  JavaScript `Date.getDay`).  Civil (year, month, day) conversion follows
  the proleptic Gregorian calendar, matching `Date` for the supported
  range (years ≥ 1970).
* `Math.random()` is modelled by an injected stream `draws : ℕ → ℚ`
  consumed one value per trade in program order (`drawIdx` in the state).
-/

/- Batteries marks the `Rat` arithmetic operations `@[irreducible]`, which
blocks `decide` on concrete rational computations even though the kernel
reduces them fine; restore the default reducibility for them. -/
set_option allowUnsafeReducibility true
attribute [semireducible] Rat.add Rat.mul Rat.inv Rat.sub Rat.div Rat.neg

set_option maxRecDepth 100000

namespace TradingSim

/-- A JavaScript number: an exact rational or an IEEE special value.
(Float rounding is idealized away; the claims are about the algebraic
structure of the computation, not about rounding.) -/
inductive JSNum where
  | num (q : ℚ)
  | posInf
  | negInf
  | nan
deriving DecidableEq

/-- Is this JS number an ordinary finite number (not NaN, not ±Infinity)? -/
def JSNum.isNum : JSNum → Bool
  | .num _ => true
  | _ => false

/-- JavaScript division, including the IEEE special cases:
`x/0` is `NaN` when `x = 0` and a signed infinity otherwise. -/
def jsDiv : JSNum → JSNum → JSNum
  | .nan, _ => .nan
  | _, .nan => .nan
  | .num a, .num b =>
      if b = 0 then
        if a = 0 then .nan else if a > 0 then .posInf else .negInf
      else .num (a / b)
  | .num _, .posInf => .num 0
  | .num _, .negInf => .num 0
  | .posInf, .num b => if b ≥ 0 then .posInf else .negInf
  | .negInf, .num b => if b ≥ 0 then .negInf else .posInf
  | .posInf, .posInf => .nan
  | .posInf, .negInf => .nan
  | .negInf, .posInf => .nan
  | .negInf, .negInf => .nan

/-- JavaScript multiplication, including the IEEE special cases
(`0 × ∞ = NaN`). -/
def jsMul : JSNum → JSNum → JSNum
  | .nan, _ => .nan
  | _, .nan => .nan
  | .num a, .num b => .num (a * b)
  | .num a, .posInf => if a = 0 then .nan else if a > 0 then .posInf else .negInf
  | .num a, .negInf => if a = 0 then .nan else if a > 0 then .negInf else .posInf
  | .posInf, .num b => if b = 0 then .nan else if b > 0 then .posInf else .negInf
  | .negInf, .num b => if b = 0 then .nan else if b > 0 then .negInf else .posInf
  | .posInf, .posInf => .posInf
  | .posInf, .negInf => .negInf
  | .negInf, .posInf => .negInf
  | .negInf, .negInf => .posInf

/-- JavaScript `>` comparison: any comparison involving `NaN` is false. -/
def jsGt : JSNum → JSNum → Bool
  | .nan, _ => false
  | _, .nan => false
  | .num a, .num b => a > b
  | .num _, .posInf => false
  | .num _, .negInf => true
  | .posInf, .num _ => true
  | .posInf, .posInf => false
  | .posInf, .negInf => true
  | .negInf, _ => false

/-- Mathematical `≤` on non-NaN JS numbers; comparisons involving `NaN`
are (as in IEEE) false. -/
def jsLe : JSNum → JSNum → Bool
  | .nan, _ => false
  | _, .nan => false
  | .num a, .num b => a ≤ b
  | _, .posInf => true
  | .posInf, _ => false
  | .negInf, _ => true
  | .num _, .negInf => false

/-- JavaScript truthiness of a number: `0` and `NaN` are falsy. -/
def jsTruthy : JSNum → Bool
  | .num q => q ≠ 0
  | .nan => false
  | _ => true

/-- The JavaScript `x || d` fallback on numbers. -/
def jsOr (x d : JSNum) : JSNum := if jsTruthy x then x else d

/-! ## Calendar arithmetic

A date is a day ordinal `z : ℕ` counting days since 1970-01-01.
`civilFromDays`/`daysFromCivil` are the standard Gregorian
days-from-civil algorithms, restricted to the natural numbers
(valid for all dates from 1970 on, which covers the dates the simulator uses). -/

/-- JavaScript `Date.getDay()`: 0 = Sunday, …, 6 = Saturday
(1970-01-01 was a Thursday). -/
def weekday (z : ℕ) : ℕ := (z + 4) % 7

/-- Convert a day ordinal (days since 1970-01-01) to a civil Gregorian
date (year, month 1..12, day 1..31). -/
def civilFromDays (z : ℕ) : ℕ × ℕ × ℕ :=
  let zz := z + 719468
  let era := zz / 146097
  let doe := zz % 146097
  let yoe := (doe - doe / 1460 + doe / 36524 - doe / 146096) / 365
  let y := yoe + era * 400
  let doy := doe - (365 * yoe + yoe / 4 - yoe / 100)
  let mp := (5 * doy + 2) / 153
  let d := doy - (153 * mp + 2) / 5 + 1
  let m := if mp < 10 then mp + 3 else mp - 9
  (if m ≤ 2 then y + 1 else y, m, d)

/-- Convert a civil Gregorian date (year ≥ 1970) to its day ordinal
(days since 1970-01-01). -/
def daysFromCivil (y m d : ℕ) : ℕ :=
  let yy := if m ≤ 2 then y - 1 else y
  let era := yy / 400
  let yoe := yy % 400
  let mp := if m > 2 then m - 3 else m + 9
  let doy := (153 * mp + 2) / 5 + d - 1
  let doe := yoe * 365 + yoe / 4 - yoe / 100 + doy
  era * 146097 + doe - 719468

/-- English three-letter month abbreviation, as produced by the
`toLocaleString` short-month formatting of the source in an English locale. -/
def monthAbbrev : ℕ → String
  | 1 => "Jan" | 2 => "Feb" | 3 => "Mar" | 4 => "Apr"
  | 5 => "May" | 6 => "Jun" | 7 => "Jul" | 8 => "Aug"
  | 9 => "Sep" | 10 => "Oct" | 11 => "Nov" | 12 => "Dec"
  | _ => ""

/-- The week number computed in `generateDates` (lines 79-81):
`Math.ceil((pastDaysOfYear + firstDayOfYear.getDay() + 1) / 7)`. -/
def weekNumber (z : ℕ) : ℕ :=
  let y := (civilFromDays z).1
  let jan1 := daysFromCivil y 1 1
  let pastDaysOfYear := z - jan1
  (pastDaysOfYear + weekday jan1 + 1 + 6) / 7

/-- `DateInfo` from `types.ts`: one trading day with its display label,
month bucket key, week bucket key and underlying date. -/
structure DateInfo where
  fullDate : String
  month : String
  week : String
  dateObj : ℕ
deriving DecidableEq

/-- Build the `DateInfo` pushed by `generateDates` for a kept day. -/
def mkDateInfo (z : ℕ) : DateInfo :=
  let c := civilFromDays z
  let y := c.1
  let m := c.2.1
  let d := c.2.2
  { fullDate := monthAbbrev m ++ " " ++ toString d ++ " " ++ toString y
    month := monthAbbrev m ++ " " ++ toString y
    week := "Week " ++ toString (weekNumber z) ++ ", " ++ toString y
    dateObj := z }

/-- Is `z` a weekday (the filter in `generateDates`, line 73:
`getDay() !== 0 && getDay() !== 6`)? -/
def isWeekday (z : ℕ) : Bool := weekday z != 0 && weekday z != 6

/-- `generateDates` (lines 67-96): walk each calendar day from `startDate`
to `endDate` inclusive, keep the non-weekend days in order.  When
`endDate < startDate` the loop body never runs and the list is empty
(truncated subtraction gives `List.range' _ 0 = []`). -/
def generateDates (startDate endDate : ℕ) : List DateInfo :=
  ((List.range' startDate (endDate + 1 - startDate)).filter isWeekday).map mkDateInfo

/-- The number of weekdays in `[startDate, endDate]` inclusive.
Modelled from the spec ("the count of weekdays in [start, end]") as an
independent count over the inclusive day range, to compare with
`generateDates`. -/
def countWeekdays (startDate endDate : ℕ) : ℕ :=
  ((List.range' startDate (endDate + 1 - startDate)).filter isWeekday).length

/-- Dead code at lines 57-59 of the source (`approxTradingDays` is computed
but never read afterwards); kept for fidelity. -/
def approxTradingDays (startDate endDate : ℕ) : ℕ :=
  let dayDiff := endDate - startDate
  let weekendDays := (dayDiff / 7) * 2
  max 1 (dayDiff - weekendDays)

/-! ## Simulation data model -/

/-- The engine-relevant fields of `SimulationSettings` (`types.ts`);
the UI-only fields are omitted.  `winRate` is the configured target win
rate as a percentage; `riskReward` models the source field `riskRewardRatio`
field.  Dates are day ordinals (the parsed `startDate`/`endDate`). -/
structure SimulationSettings where
  startDate : ℕ
  endDate : ℕ
  tradesPerDay : ℕ
  winRate : ℚ
  riskReward : ℚ
  riskPerTrade : ℚ
  startingEquity : ℚ
deriving DecidableEq

/-- `targetWinRate = params.winRate / 100` (line 45). -/
def targetWinRate (p : SimulationSettings) : ℚ := p.winRate / 100

/-- `rewardPerTrade = riskPerTrade * riskRewardRatio` (line 49). -/
def rewardPerTrade (p : SimulationSettings) : ℚ := p.riskPerTrade * p.riskReward

/-- `EquityPoint` from `types.ts`. -/
structure EquityPoint where
  date : String
  equity : ℚ
  month : String
  week : String
deriving DecidableEq

/-- One monthly or weekly statistics bucket (`MonthlyStats`/`WeeklyStats`
from `types.ts` are structurally identical; `key` models the
`month`/`week` field). -/
structure BucketStats where
  key : String
  wins : ℕ
  losses : ℕ
  profitLoss : ℚ
  trades : ℕ
deriving DecidableEq

/-- Does the bucket map contain an entry for this key?
(`monthlyStats[k]` truthiness check, line 129/140.) -/
def hasKey (l : List BucketStats) (k : String) : Bool :=
  l.any (fun b => b.key == k)

/-- Register a bucket key: append a zeroed bucket if the key is not yet
present (lines 127-149; JS object insertion order = append at end). -/
def registerKey (l : List BucketStats) (k : String) : List BucketStats :=
  if hasKey l k then l else l ++ [⟨k, 0, 0, 0, 0⟩]

/-- The pre-registration pass over the trading dates (lines 127-149),
for one bucket kind (the month keys or the week keys). -/
def initBuckets (keys : List String) : List BucketStats :=
  keys.foldl registerKey []

/-- Mutate the bucket stored under `k` (JS object keys are unique, so
updating the first match models `monthlyStats[k].field++`; a missing key
never occurs in a run because of pre-registration). -/
def updateBucket (k : String) (f : BucketStats → BucketStats) :
    List BucketStats → List BucketStats
  | [] => []
  | b :: bs => if b.key == k then f b :: bs else b :: updateBucket k f bs

/-- All mutable locals of the simulation `useEffect` (lines 61-124),
except the per-day `dayEquity` which is threaded separately through the
inner trade loop.  `drawIdx` is the position in the injected
`Math.random()` stream. -/
structure SimState where
  runningEquity : ℚ
  equityCurve : List EquityPoint
  monthlyStats : List BucketStats
  weeklyStats : List BucketStats
  totalWins : ℕ
  totalLosses : ℕ
  totalTrades : ℕ
  currentWinStreak : ℕ
  currentLossStreak : ℕ
  maxWinStreak : ℕ
  maxLossStreak : ℕ
  winStreakStart : Option String
  lossStreakStart : Option String
  maxWinStreakStart : Option String
  maxWinStreakEnd : Option String
  maxLossStreakStart : Option String
  maxLossStreakEnd : Option String
  peakEquity : ℚ
  currentDrawdown : JSNum
  maxDrawdown : JSNum
  drawdownStart : Option String
  drawdownEnd : Option String
  maxDrawdownStart : Option String
  maxDrawdownEnd : Option String
  drawIdx : ℕ
deriving DecidableEq

/-- One iteration of the inner trade loop (lines 168-217), acting on the
pair (dayEquity, state).  The branch condition is
`Math.random() < targetWinRate` (line 170). -/
def tradeStep (p : SimulationSettings) (draws : ℕ → ℚ) (date : DateInfo)
    (x : ℚ × SimState) : ℚ × SimState :=
  let dayEquity := x.1
  let s := x.2
  let isWin := draws s.drawIdx < targetWinRate p
  if isWin then
    -- win branch (lines 172-191)
    let dayEquity := dayEquity + rewardPerTrade p
    let winStreakStart :=
      if s.currentWinStreak = 0 then some date.fullDate else s.winStreakStart
    let currentWinStreak := s.currentWinStreak + 1
    let s :=
      { s with
        totalWins := s.totalWins + 1
        monthlyStats := updateBucket date.month
          (fun b => { b with
            wins := b.wins + 1
            profitLoss := b.profitLoss + rewardPerTrade p }) s.monthlyStats
        weeklyStats := updateBucket date.week
          (fun b => { b with
            wins := b.wins + 1
            profitLoss := b.profitLoss + rewardPerTrade p }) s.weeklyStats
        winStreakStart := winStreakStart
        currentWinStreak := currentWinStreak
        currentLossStreak := 0 }
    let s :=
      if currentWinStreak > s.maxWinStreak then
        { s with
          maxWinStreak := currentWinStreak
          maxWinStreakStart := winStreakStart
          maxWinStreakEnd := some date.fullDate }
      else s
    -- common tail (lines 214-216)
    let s :=
      { s with
        totalTrades := s.totalTrades + 1
        monthlyStats := updateBucket date.month
          (fun b => { b with trades := b.trades + 1 }) s.monthlyStats
        weeklyStats := updateBucket date.week
          (fun b => { b with trades := b.trades + 1 }) s.weeklyStats
        drawIdx := s.drawIdx + 1 }
    (dayEquity, s)
  else
    -- loss branch (lines 192-212)
    let dayEquity := dayEquity - p.riskPerTrade
    let lossStreakStart :=
      if s.currentLossStreak = 0 then some date.fullDate else s.lossStreakStart
    let currentLossStreak := s.currentLossStreak + 1
    let s :=
      { s with
        totalLosses := s.totalLosses + 1
        monthlyStats := updateBucket date.month
          (fun b => { b with
            losses := b.losses + 1
            profitLoss := b.profitLoss - p.riskPerTrade }) s.monthlyStats
        weeklyStats := updateBucket date.week
          (fun b => { b with
            losses := b.losses + 1
            profitLoss := b.profitLoss - p.riskPerTrade }) s.weeklyStats
        lossStreakStart := lossStreakStart
        currentLossStreak := currentLossStreak
        currentWinStreak := 0 }
    let s :=
      if currentLossStreak > s.maxLossStreak then
        { s with
          maxLossStreak := currentLossStreak
          maxLossStreakStart := lossStreakStart
          maxLossStreakEnd := some date.fullDate }
      else s
    let s :=
      { s with
        totalTrades := s.totalTrades + 1
        monthlyStats := updateBucket date.month
          (fun b => { b with trades := b.trades + 1 }) s.monthlyStats
        weeklyStats := updateBucket date.week
          (fun b => { b with trades := b.trades + 1 }) s.weeklyStats
        drawIdx := s.drawIdx + 1 }
    (dayEquity, s)

/-- The drawdown percentage of line 225-226,
`(drawdownAmount / peakEquity) * 100`, through JS arithmetic. -/
def drawdownPercentage (peakEquity dayEquity : ℚ) : JSNum :=
  jsMul (jsDiv (JSNum.num (peakEquity - dayEquity)) (JSNum.num peakEquity))
    (JSNum.num 100)

/-- One iteration of the outer day loop (lines 161-251): run the
`tradesPerDay` trades, update the drawdown trackers, append the equity
point, commit `runningEquity`. -/
def dayStep (p : SimulationSettings) (draws : ℕ → ℚ)
    (s : SimState) (date : DateInfo) : SimState :=
  let x := (tradeStep p draws date)^[p.tradesPerDay] (s.runningEquity, s)
  let dayEquity := x.1
  let s1 := x.2
  -- drawdown tracking, lines 219-241
  let s2 :=
    if dayEquity > s1.peakEquity then
      { s1 with
        peakEquity := dayEquity
        currentDrawdown := JSNum.num 0
        drawdownStart := none }
    else
      let pct := drawdownPercentage s1.peakEquity dayEquity
      if jsGt pct s1.currentDrawdown then
        let newStart :=
          match s1.drawdownStart with
          | none => some date.fullDate
          | some x => some x
        let s := { s1 with
          currentDrawdown := pct
          drawdownStart := newStart
          drawdownEnd := some date.fullDate }
        if jsGt s.currentDrawdown s.maxDrawdown then
          { s with
            maxDrawdown := s.currentDrawdown
            maxDrawdownStart := s.drawdownStart
            maxDrawdownEnd := s.drawdownEnd }
        else s
      else s1
  -- equity point and commit, lines 243-250
  { s2 with
    equityCurve := s2.equityCurve ++
      [⟨date.fullDate, dayEquity, date.month, date.week⟩]
    runningEquity := dayEquity }

/-- The state at line 161, after initialization (lines 61-159): zeroed
trackers, pre-registered buckets, and the seed equity point (lines
151-159, pushed only when at least one trading day exists). -/
def initState (p : SimulationSettings) : SimState :=
  let dates := generateDates p.startDate p.endDate
  { runningEquity := p.startingEquity
    equityCurve :=
      match dates with
      | [] => []
      | d :: _ => [⟨d.fullDate, p.startingEquity, d.month, d.week⟩]
    monthlyStats := initBuckets (dates.map (fun d => d.month))
    weeklyStats := initBuckets (dates.map (fun d => d.week))
    totalWins := 0
    totalLosses := 0
    totalTrades := 0
    currentWinStreak := 0
    currentLossStreak := 0
    maxWinStreak := 0
    maxLossStreak := 0
    winStreakStart := none
    lossStreakStart := none
    maxWinStreakStart := none
    maxWinStreakEnd := none
    maxLossStreakStart := none
    maxLossStreakEnd := none
    peakEquity := p.startingEquity
    currentDrawdown := JSNum.num 0
    maxDrawdown := JSNum.num 0
    drawdownStart := none
    drawdownEnd := none
    maxDrawdownStart := none
    maxDrawdownEnd := none
    drawIdx := 0 }

/-- The accumulated state after the first `i` trading days (the
day-by-day pass truncated to a prefix; `runState` below is the full
pass). -/
def runUpTo (p : SimulationSettings) (draws : ℕ → ℚ) (i : ℕ) : SimState :=
  ((generateDates p.startDate p.endDate).take i).foldl
    (dayStep p draws) (initState p)

/-- The accumulated state after the whole day loop (line 251). -/
def runState (p : SimulationSettings) (draws : ℕ → ℚ) : SimState :=
  (generateDates p.startDate p.endDate).foldl (dayStep p draws) (initState p)

/-- One row of the monthly/weekly breakdown: the bucket plus its
finalized win-rate percentage (numeric value before `toFixed`
formatting). -/
structure BucketRow where
  key : String
  wins : ℕ
  losses : ℕ
  profitLoss : ℚ
  trades : ℕ
  winRate : JSNum
deriving DecidableEq

/-- Finalize one bucket (lines 261-276):
`winRate = wins / (wins + losses) * 100 || 0`. -/
def mkRow (b : BucketStats) : BucketRow :=
  { key := b.key
    wins := b.wins
    losses := b.losses
    profitLoss := b.profitLoss
    trades := b.trades
    winRate := jsOr
      (jsMul (jsDiv (JSNum.num b.wins) (JSNum.num (b.wins + b.losses)))
        (JSNum.num 100))
      (JSNum.num 0) }

/-- The `SimulationStats` record passed to `setStats` (lines 278-297).
Fields computed through JS division carry `JSNum`; fields that are pure
rational arithmetic carry `ℚ`. -/
structure SimulationStats where
  winRate : JSNum
  avgRPerDay : JSNum
  avgRPerWeek : JSNum
  avgTradesPerDay : JSNum
  initialEquity : ℚ
  finalEquity : ℚ
  totalProfit : ℚ
  maxWinStreak : ℕ
  maxLossStreak : ℕ
  maxDrawdown : JSNum
  maxDrawdownPeriod : String
  maxWinStreakPeriod : String
  maxLossStreakPeriod : String
  equityCurve : List EquityPoint
  monthlyBreakdown : List BucketRow
  weeklyBreakdown : List BucketRow
  totalTrades : ℕ
  riskReward : ℚ
deriving DecidableEq

/-- Render a streak/drawdown period (lines 289-291):
"`start` to `end`", with `N/A` for a missing endpoint. -/
def periodString (a b : Option String) : String :=
  a.getD "N/A" ++ " to " ++ b.getD "N/A"

/-- The summary derivation (lines 253-297) applied to the final state of
the day loop. -/
def runSummary (p : SimulationSettings) (draws : ℕ → ℚ) : SimulationStats :=
  let dates := generateDates p.startDate p.endDate
  let s := runState p draws
  -- line 254: actualWinRate = totalWins / (totalWins + totalLosses) * 100 || params.winRate
  let actualWinRate := jsOr
    (jsMul (jsDiv (JSNum.num s.totalWins)
      (JSNum.num (s.totalWins + s.totalLosses))) (JSNum.num 100))
    (JSNum.num p.winRate)
  -- line 255
  let totalProfit := s.runningEquity - p.startingEquity
  -- line 256: avgRPerDay = totalProfit / (riskPerTrade * dates.length) || 0
  let avgRPerDay := jsOr
    (jsDiv (JSNum.num totalProfit)
      (JSNum.num (p.riskPerTrade * dates.length)))
    (JSNum.num 0)
  -- line 257: avgRPerWeek = avgRPerDay * 5
  let avgRPerWeek := jsMul avgRPerDay (JSNum.num 5)
  -- line 258: actualAvgTradesPerDay = totalTrades / dates.length || params.tradesPerDay
  let actualAvgTradesPerDay := jsOr
    (jsDiv (JSNum.num s.totalTrades) (JSNum.num dates.length))
    (JSNum.num p.tradesPerDay)
  { winRate := actualWinRate
    avgRPerDay := avgRPerDay
    avgRPerWeek := avgRPerWeek
    avgTradesPerDay := actualAvgTradesPerDay
    initialEquity := p.startingEquity
    finalEquity := s.runningEquity
    totalProfit := totalProfit
    maxWinStreak := s.maxWinStreak
    maxLossStreak := s.maxLossStreak
    maxDrawdown := s.maxDrawdown
    maxDrawdownPeriod := periodString s.maxDrawdownStart s.maxDrawdownEnd
    maxWinStreakPeriod := periodString s.maxWinStreakStart s.maxWinStreakEnd
    maxLossStreakPeriod := periodString s.maxLossStreakStart s.maxLossStreakEnd
    equityCurve := s.equityCurve
    monthlyBreakdown := s.monthlyStats.map mkRow
    weeklyBreakdown := s.weeklyStats.map mkRow
    totalTrades := s.totalTrades
    riskReward := p.riskReward }

/-- The number of trading days whose month key is `k`
(for the bucket-size claims). -/
def countDaysMonth (p : SimulationSettings) (k : String) : ℕ :=
  ((generateDates p.startDate p.endDate).filter (fun d => d.month == k)).length

/-- The number of trading days whose week key is `k`. -/
def countDaysWeek (p : SimulationSettings) (k : String) : ℕ :=
  ((generateDates p.startDate p.endDate).filter (fun d => d.week == k)).length

/-- Streak exclusivity: the two current-streak counters are never both
positive. -/
def exclStreaks (s : SimState) : Prop :=
  s.currentWinStreak = 0 ∨ s.currentLossStreak = 0

/-- The keys of a bucket map, in insertion order. -/
def bucketKeys (l : List BucketStats) : List String :=
  l.map (fun b => b.key)

/-- The trade count stored under key `k` (0 when the key is absent). -/
def tradesOf (l : List BucketStats) (k : String) : ℕ :=
  ((l.find? (fun b => b.key == k)).map (fun b => b.trades)).getD 0

/-- The combined effect of one winning trade on its bucket (lines 175-178
and 215-216 merged): wins + 1, profit + reward, trades + 1. -/
def winUpdate (p : SimulationSettings) (b : BucketStats) : BucketStats :=
  { b with
    wins := b.wins + 1
    profitLoss := b.profitLoss + rewardPerTrade p
    trades := b.trades + 1 }

/-- The combined effect of one losing trade on its bucket (lines 195-198
and 215-216 merged): losses + 1, profit − risk, trades + 1. -/
def lossUpdate (p : SimulationSettings) (b : BucketStats) : BucketStats :=
  { b with
    losses := b.losses + 1
    profitLoss := b.profitLoss - p.riskPerTrade
    trades := b.trades + 1 }

/-- The bucket bookkeeping invariant of one simulation pass: every bucket
satisfies wins + losses = trades, the per-kind bucket trade counts sum to
the running total trade count, and the bucket keys of every trading day are
present in both maps. -/
def bucketInvariant (dates : List DateInfo) (s : SimState) : Prop :=
  (s.monthlyStats.all fun b => b.wins + b.losses == b.trades) = true ∧
  (s.monthlyStats.map fun b => b.trades).sum = s.totalTrades ∧
  (s.weeklyStats.all fun b => b.wins + b.losses == b.trades) = true ∧
  (s.weeklyStats.map fun b => b.trades).sum = s.totalTrades ∧
  (∀ d ∈ dates, hasKey s.monthlyStats d.month = true ∧
    hasKey s.weeklyStats d.week = true)

/-! ## Concrete runs used as test inputs -/

/-- A draw stream that makes every trial a loss for any target win rate
at most 1 (`Math.random()` returning values at the top of its range is
approximated by the constant 1; only the comparison outcome matters). -/
def allLossDraws : ℕ → ℚ := fun _ => 1

/-- One trading day (Wednesday 2025-01-01), one trade per day, configured
win rate 55%, risk 100, 1:1 reward, starting equity 1000. -/
def pLossy : SimulationSettings :=
  { startDate := daysFromCivil 2025 1 1
    endDate := daysFromCivil 2025 1 1
    tradesPerDay := 1
    winRate := 55
    riskReward := 1
    riskPerTrade := 100
    startingEquity := 1000 }

/-- Same single-day run but with starting equity 0 (all other parameters
inside the stated valid ranges). -/
def pZeroEquity : SimulationSettings :=
  { startDate := daysFromCivil 2025 1 1
    endDate := daysFromCivil 2025 1 1
    tradesPerDay := 1
    winRate := 0
    riskReward := 2
    riskPerTrade := 100
    startingEquity := 0 }

/-- The scenario of spec section 8: 2025-01-01 to 2025-01-10, win rate 0,
1 trade/day, risk 100, 1:2 risk:reward, starting equity 1000. -/
def pSpec8 : SimulationSettings :=
  { startDate := daysFromCivil 2025 1 1
    endDate := daysFromCivil 2025 1 10
    tradesPerDay := 1
    winRate := 0
    riskReward := 2
    riskPerTrade := 100
    startingEquity := 1000 }

/-! ## Helper lemmas -/

theorem jsLe_refl_of_not_nan (x : JSNum) (h : x ≠ JSNum.nan) : jsLe x x = true := by
  cases x <;> simp [jsLe] at h ⊢

theorem jsLe_trans {x y z : JSNum} (h1 : jsLe x y = true) (h2 : jsLe y z = true) :
    jsLe x z = true := by
  cases x <;> cases y <;> cases z <;>
    simp_all [jsLe] <;> exact le_trans h1 h2

theorem jsLe_of_jsGt {x y : JSNum} (h : jsGt x y = true) : jsLe y x = true := by
  cases x <;> cases y <;> simp_all [jsGt, jsLe] <;> exact le_of_lt h

theorem tradeStep_fixed (p : SimulationSettings) (draws : ℕ → ℚ)
    (date : DateInfo) (x : ℚ × SimState) :
    (tradeStep p draws date x).2.runningEquity = x.2.runningEquity ∧
    (tradeStep p draws date x).2.equityCurve = x.2.equityCurve ∧
    (tradeStep p draws date x).2.peakEquity = x.2.peakEquity ∧
    (tradeStep p draws date x).2.currentDrawdown = x.2.currentDrawdown ∧
    (tradeStep p draws date x).2.maxDrawdown = x.2.maxDrawdown ∧
    (tradeStep p draws date x).2.drawdownStart = x.2.drawdownStart ∧
    (tradeStep p draws date x).2.drawdownEnd = x.2.drawdownEnd ∧
    (tradeStep p draws date x).2.maxDrawdownStart = x.2.maxDrawdownStart ∧
    (tradeStep p draws date x).2.maxDrawdownEnd = x.2.maxDrawdownEnd := by
  unfold tradeStep
  dsimp only
  split
  · split <;> simp
  · split <;> simp

theorem tradeStep_iter_fixed (p : SimulationSettings) (draws : ℕ → ℚ)
    (date : DateInfo) (n : ℕ) (x : ℚ × SimState) :
    ((tradeStep p draws date)^[n] x).2.runningEquity = x.2.runningEquity ∧
    ((tradeStep p draws date)^[n] x).2.equityCurve = x.2.equityCurve ∧
    ((tradeStep p draws date)^[n] x).2.peakEquity = x.2.peakEquity ∧
    ((tradeStep p draws date)^[n] x).2.currentDrawdown = x.2.currentDrawdown ∧
    ((tradeStep p draws date)^[n] x).2.maxDrawdown = x.2.maxDrawdown ∧
    ((tradeStep p draws date)^[n] x).2.drawdownStart = x.2.drawdownStart ∧
    ((tradeStep p draws date)^[n] x).2.drawdownEnd = x.2.drawdownEnd ∧
    ((tradeStep p draws date)^[n] x).2.maxDrawdownStart = x.2.maxDrawdownStart ∧
    ((tradeStep p draws date)^[n] x).2.maxDrawdownEnd = x.2.maxDrawdownEnd := by
  induction n with
  | zero => simp
  | succ n ih =>
      rw [Function.iterate_succ_apply']
      have h := tradeStep_fixed p draws date ((tradeStep p draws date)^[n] x)
      obtain ⟨a1, a2, a3, a4, a5, a6, a7, a8, a9⟩ := h
      obtain ⟨b1, b2, b3, b4, b5, b6, b7, b8, b9⟩ := ih
      exact ⟨a1.trans b1, a2.trans b2, a3.trans b3, a4.trans b4, a5.trans b5,
        a6.trans b6, a7.trans b7, a8.trans b8, a9.trans b9⟩

theorem foldl_preserve {α β : Type} (P : α → Prop) (f : α → β → α)
    (h : ∀ s d, P s → P (f s d)) :
    ∀ (l : List β) (s : α), P s → P (l.foldl f s) := by
  intro l
  induction l with
  | nil => intro s hs; exact hs
  | cons d t ih => intro s hs; exact ih (f s d) (h s d hs)

theorem iterate_preserve {α : Type} (P : α → Prop) (f : α → α)
    (h : ∀ x, P x → P (f x)) :
    ∀ (n : ℕ) (x : α), P x → P (f^[n] x) := by
  intro n
  induction n with
  | zero => intro x hx; exact hx
  | succ n ih =>
      intro x hx
      rw [Function.iterate_succ_apply']
      exact h _ (ih x hx)

theorem dayStep_curve_length (p : SimulationSettings) (draws : ℕ → ℚ)
    (s : SimState) (d : DateInfo) :
    (dayStep p draws s d).equityCurve.length = s.equityCurve.length + 1 := by
  have h := (tradeStep_iter_fixed p draws d p.tradesPerDay (s.runningEquity, s)).2.1
  unfold dayStep
  dsimp only
  split
  · simp [h]
  · split
    · split <;> simp [h]
    · simp [h]

theorem dayStep_curve_head (p : SimulationSettings) (draws : ℕ → ℚ)
    (s : SimState) (d : DateInfo) (h0 : s.equityCurve ≠ []) :
    (dayStep p draws s d).equityCurve.head? = s.equityCurve.head? := by
  have h := (tradeStep_iter_fixed p draws d p.tradesPerDay (s.runningEquity, s)).2.1
  have happ : ∀ (l : List EquityPoint) (x : EquityPoint), l ≠ [] →
      (l ++ [x]).head? = l.head? := by
    intro l x hl
    cases l with
    | nil => exact absurd rfl hl
    | cons a t => simp
  unfold dayStep
  dsimp only
  split
  · simp only [h]; exact happ _ _ h0
  · split
    · split
      · simp only [h]; exact happ _ _ h0
      · simp only [h]; exact happ _ _ h0
    · simp only [h]; exact happ _ _ h0

theorem foldl_curve_length (p : SimulationSettings) (draws : ℕ → ℚ) :
    ∀ (l : List DateInfo) (s : SimState),
      ((l.foldl (dayStep p draws) s).equityCurve).length =
        s.equityCurve.length + l.length := by
  intro l
  induction l with
  | nil => intro s; simp
  | cons d t ih =>
      intro s
      simp only [List.foldl_cons, ih, dayStep_curve_length, List.length_cons]
      omega

theorem runSummary_equityCurve (p : SimulationSettings) (draws : ℕ → ℚ) :
    (runSummary p draws).equityCurve = (runState p draws).equityCurve := rfl

theorem runSummary_finalEquity (p : SimulationSettings) (draws : ℕ → ℚ) :
    (runSummary p draws).finalEquity = (runState p draws).runningEquity := rfl

theorem runSummary_totalProfit (p : SimulationSettings) (draws : ℕ → ℚ) :
    (runSummary p draws).totalProfit =
      (runState p draws).runningEquity - p.startingEquity := rfl

theorem runSummary_maxDrawdown (p : SimulationSettings) (draws : ℕ → ℚ) :
    (runSummary p draws).maxDrawdown = (runState p draws).maxDrawdown := rfl

theorem runSummary_totalTrades (p : SimulationSettings) (draws : ℕ → ℚ) :
    (runSummary p draws).totalTrades = (runState p draws).totalTrades := rfl

theorem runSummary_monthlyBreakdown (p : SimulationSettings) (draws : ℕ → ℚ) :
    (runSummary p draws).monthlyBreakdown =
      (runState p draws).monthlyStats.map mkRow := rfl

theorem runSummary_weeklyBreakdown (p : SimulationSettings) (draws : ℕ → ℚ) :
    (runSummary p draws).weeklyBreakdown =
      (runState p draws).weeklyStats.map mkRow := rfl

theorem runSummary_winRate (p : SimulationSettings) (draws : ℕ → ℚ) :
    (runSummary p draws).winRate = jsOr
      (jsMul (jsDiv (JSNum.num (runState p draws).totalWins)
        (JSNum.num ((runState p draws).totalWins + (runState p draws).totalLosses)))
        (JSNum.num 100))
      (JSNum.num p.winRate) := rfl

/-- C5: the equity curve has one seed point plus one point per trading
day, and is empty exactly when there are no trading days. -/
theorem c5_equity_curve_length (p : SimulationSettings) (draws : ℕ → ℚ) :
    (runSummary p draws).equityCurve.length =
      (if (generateDates p.startDate p.endDate).length = 0 then 0
       else (generateDates p.startDate p.endDate).length + 1) ∧
    Option.map (fun e => e.equity) (runSummary p draws).equityCurve.head? =
      (if (generateDates p.startDate p.endDate).length = 0 then none
       else some p.startingEquity) := by
  rw [runSummary_equityCurve]
  simp only [runState]
  cases h : generateDates p.startDate p.endDate with
  | nil =>
      simp only [List.foldl_nil, initState, h]
      simp
  | cons d t =>
      have hinit : (initState p).equityCurve =
          [⟨d.fullDate, p.startingEquity, d.month, d.week⟩] := by
        simp only [initState, h]
      constructor
      · rw [foldl_curve_length, hinit]
        simp
        omega
      · have hP := foldl_preserve
          (fun s : SimState => s.equityCurve ≠ [] ∧
            s.equityCurve.head? =
              some ⟨d.fullDate, p.startingEquity, d.month, d.week⟩)
          (dayStep p draws)
          (by
            intro s dd hs
            have hne : (dayStep p draws s dd).equityCurve ≠ [] := by
              have := dayStep_curve_length p draws s dd
              intro hcon
              rw [hcon] at this
              simp at this
            exact ⟨hne, by rw [dayStep_curve_head p draws s dd hs.1]; exact hs.2⟩)
          (d :: t) (initState p)
          (by
            refine ⟨?_, ?_⟩ <;> rw [hinit] <;> simp)
        obtain ⟨h1, h2⟩ := hP
        rw [h2]
        simp

theorem tradeStep_equity (p : SimulationSettings) (draws : ℕ → ℚ)
    (date : DateInfo) (x : ℚ × SimState) :
    ((tradeStep p draws date x).1 = x.1 + rewardPerTrade p ∧
      (tradeStep p draws date x).2.totalWins = x.2.totalWins + 1 ∧
      (tradeStep p draws date x).2.totalLosses = x.2.totalLosses) ∨
    ((tradeStep p draws date x).1 = x.1 - p.riskPerTrade ∧
      (tradeStep p draws date x).2.totalWins = x.2.totalWins ∧
      (tradeStep p draws date x).2.totalLosses = x.2.totalLosses + 1) := by
  unfold tradeStep
  dsimp only
  split
  · left; split <;> simp
  · right; split <;> simp

theorem dayStep_commit (p : SimulationSettings) (draws : ℕ → ℚ)
    (s : SimState) (d : DateInfo) :
    (dayStep p draws s d).runningEquity =
      ((tradeStep p draws d)^[p.tradesPerDay] (s.runningEquity, s)).1 ∧
    (dayStep p draws s d).totalWins =
      ((tradeStep p draws d)^[p.tradesPerDay] (s.runningEquity, s)).2.totalWins ∧
    (dayStep p draws s d).totalLosses =
      ((tradeStep p draws d)^[p.tradesPerDay] (s.runningEquity, s)).2.totalLosses ∧
    (dayStep p draws s d).totalTrades =
      ((tradeStep p draws d)^[p.tradesPerDay] (s.runningEquity, s)).2.totalTrades ∧
    (dayStep p draws s d).monthlyStats =
      ((tradeStep p draws d)^[p.tradesPerDay] (s.runningEquity, s)).2.monthlyStats ∧
    (dayStep p draws s d).weeklyStats =
      ((tradeStep p draws d)^[p.tradesPerDay] (s.runningEquity, s)).2.weeklyStats ∧
    (dayStep p draws s d).currentWinStreak =
      ((tradeStep p draws d)^[p.tradesPerDay] (s.runningEquity, s)).2.currentWinStreak ∧
    (dayStep p draws s d).currentLossStreak =
      ((tradeStep p draws d)^[p.tradesPerDay] (s.runningEquity, s)).2.currentLossStreak ∧
    (dayStep p draws s d).equityCurve =
      ((tradeStep p draws d)^[p.tradesPerDay] (s.runningEquity, s)).2.equityCurve ++
        [⟨d.fullDate, ((tradeStep p draws d)^[p.tradesPerDay] (s.runningEquity, s)).1,
          d.month, d.week⟩] := by
  unfold dayStep
  dsimp only
  split
  · simp
  · split
    · split <;> simp
    · simp

theorem tradeStep_equity_inv (p : SimulationSettings) (draws : ℕ → ℚ)
    (date : DateInfo) (x : ℚ × SimState)
    (h : x.1 = p.startingEquity + x.2.totalWins * rewardPerTrade p
      - x.2.totalLosses * p.riskPerTrade) :
    (tradeStep p draws date x).1 =
      p.startingEquity + (tradeStep p draws date x).2.totalWins * rewardPerTrade p
        - (tradeStep p draws date x).2.totalLosses * p.riskPerTrade := by
  rcases tradeStep_equity p draws date x with ⟨h1, h2, h3⟩ | ⟨h1, h2, h3⟩ <;>
    rw [h1, h2, h3, h] <;> push_cast <;> ring

/-- C9: final equity equals starting equity plus wins times reward minus
losses times risk; total profit is the equity change; a non-empty equity
curve ends at the final equity. -/
theorem c9_final_equity (p : SimulationSettings) (draws : ℕ → ℚ) :
    (runSummary p draws).finalEquity =
      p.startingEquity +
        (runState p draws).totalWins * (p.riskPerTrade * p.riskReward) -
        (runState p draws).totalLosses * p.riskPerTrade ∧
    (runSummary p draws).totalProfit =
      (runSummary p draws).finalEquity - (runSummary p draws).initialEquity ∧
    (Option.map (fun e => e.equity) (runSummary p draws).equityCurve.getLast?).getD
        (runSummary p draws).finalEquity = (runSummary p draws).finalEquity := by
  have key := foldl_preserve
    (fun s : SimState =>
      s.runningEquity = p.startingEquity + s.totalWins * rewardPerTrade p
        - s.totalLosses * p.riskPerTrade ∧
      (Option.map (fun e : EquityPoint => e.equity) s.equityCurve.getLast?).getD
        s.runningEquity = s.runningEquity)
    (dayStep p draws)
    (by
      intro s d hs
      obtain ⟨c1, c2, c3, c4, c5, c6, c7, c8, c9⟩ := dayStep_commit p draws s d
      have hiter := iterate_preserve
        (fun x : ℚ × SimState =>
          x.1 = p.startingEquity + x.2.totalWins * rewardPerTrade p
            - x.2.totalLosses * p.riskPerTrade)
        (tradeStep p draws d)
        (fun x hx => tradeStep_equity_inv p draws d x hx)
        p.tradesPerDay (s.runningEquity, s) hs.1
      constructor
      · rw [c1, c2, c3]; exact hiter
      · rw [c9, c1]
        simp)
    (generateDates p.startDate p.endDate) (initState p)
    (by
      constructor
      · simp [initState]
      · simp only [initState]
        cases hgen : generateDates p.startDate p.endDate <;> simp)
  obtain ⟨k1, k2⟩ := key
  refine ⟨?_, rfl, ?_⟩
  · rw [runSummary_finalEquity]
    simp only [runState]
    rw [k1, rewardPerTrade]
  · rw [runSummary_equityCurve, runSummary_finalEquity]
    simp only [runState]
    exact k2

theorem jsWinRate_eq (w l : ℕ) (target : ℚ) :
    jsOr (jsMul (jsDiv (JSNum.num (w : ℚ)) (JSNum.num ((w : ℚ) + (l : ℚ))))
        (JSNum.num 100)) (JSNum.num target) =
      (if w = 0 then JSNum.num target
       else JSNum.num ((w : ℚ) / ((w : ℚ) + (l : ℚ)) * 100)) := by
  by_cases hw : w = 0
  · subst hw
    by_cases hl : l = 0
    · subst hl
      simp [jsDiv, jsMul, jsOr, jsTruthy]
    · have hlq : (0 : ℚ) < (l : ℚ) := by exact_mod_cast Nat.pos_of_ne_zero hl
      have hb : ((0 : ℕ) : ℚ) + (l : ℚ) ≠ 0 := by
        push_cast
        linarith
      simp [jsDiv, jsMul, jsOr, jsTruthy, hb, hl]
  · have hwq : (0 : ℚ) < (w : ℚ) := by exact_mod_cast Nat.pos_of_ne_zero hw
    have hlq : (0 : ℚ) ≤ (l : ℚ) := Nat.cast_nonneg l
    have hb : (w : ℚ) + (l : ℚ) ≠ 0 := by linarith
    have hbq : (0 : ℚ) < (w : ℚ) + (l : ℚ) := by linarith
    have hval : (0 : ℚ) < (w : ℚ) / ((w : ℚ) + (l : ℚ)) * 100 := by
      have := div_pos hwq hbq
      linarith
    rw [if_neg hw]
    simp only [jsDiv, jsMul, jsOr, jsTruthy]
    rw [if_neg hb]
    simp [ne_of_gt hval]

theorem runSummary_winRate_eq (p : SimulationSettings) (draws : ℕ → ℚ) :
    (runSummary p draws).winRate =
      (if (runState p draws).totalWins = 0 then JSNum.num p.winRate
       else JSNum.num (((runState p draws).totalWins : ℚ) /
         (((runState p draws).totalWins : ℚ) +
           ((runState p draws).totalLosses : ℚ)) * 100)) := by
  rw [runSummary_winRate]
  exact jsWinRate_eq (runState p draws).totalWins (runState p draws).totalLosses
    p.winRate

/-- C1 counterexample: a run whose only decided trade is a loss (configured
target 55%) reports a realized win rate of 55, not 0 — the `||` fallback
fires on the falsy ratio 0, not only when there are no decided trades. -/
theorem c1_counterexample :
    (runState pLossy allLossDraws).totalWins = 0 ∧
    (runState pLossy allLossDraws).totalLosses = 1 ∧
    (runSummary pLossy allLossDraws).winRate = JSNum.num 55 ∧
    JSNum.num (55 : ℚ) ≠ JSNum.num 0 := by decide

/-- C1 (amended): the realized win rate is wins/(wins+losses)×100 whenever
at least one trade won; the fallback to the configured target fires exactly
when the total win count is 0 — which covers both a run with no decided
trades and a run whose decided trades are all losses. -/
theorem c1_win_rate_fallback (p : SimulationSettings) (draws : ℕ → ℚ) :
    (runSummary p draws).winRate =
      (if (runState p draws).totalWins = 0 then JSNum.num p.winRate
       else JSNum.num (((runState p draws).totalWins : ℚ) /
         (((runState p draws).totalWins : ℚ) +
           ((runState p draws).totalLosses : ℚ)) * 100)) :=
  runSummary_winRate_eq p draws

theorem runSummary_avgRPerDay (p : SimulationSettings) (draws : ℕ → ℚ) :
    (runSummary p draws).avgRPerDay =
      jsOr (jsDiv (JSNum.num ((runState p draws).runningEquity - p.startingEquity))
        (JSNum.num (p.riskPerTrade *
          ((generateDates p.startDate p.endDate).length : ℚ))))
        (JSNum.num 0) := rfl

theorem runSummary_avgRPerWeek (p : SimulationSettings) (draws : ℕ → ℚ) :
    (runSummary p draws).avgRPerWeek =
      jsMul (runSummary p draws).avgRPerDay (JSNum.num 5) := rfl

theorem runSummary_avgTradesPerDay (p : SimulationSettings) (draws : ℕ → ℚ) :
    (runSummary p draws).avgTradesPerDay =
      jsOr (jsDiv (JSNum.num ((runState p draws).totalTrades : ℚ))
        (JSNum.num ((generateDates p.startDate p.endDate).length : ℚ)))
        (JSNum.num ((p.tradesPerDay : ℚ))) := rfl

theorem jsOr_num_isNum (v w : ℚ) :
    (jsOr (JSNum.num v) (JSNum.num w)).isNum = true := by
  unfold jsOr
  split <;> rfl

theorem jsDiv_num_isNum (a b : ℚ) (hb : b ≠ 0) :
    jsDiv (JSNum.num a) (JSNum.num b) = JSNum.num (a / b) := by
  simp [jsDiv, hb]

theorem drawdownPercentage_isNum (peak e : ℚ) (h : peak ≠ 0) :
    (drawdownPercentage peak e).isNum = true := by
  unfold drawdownPercentage
  rw [jsDiv_num_isNum _ _ h]
  rfl

theorem dayStep_drawdown_inv (p : SimulationSettings) (draws : ℕ → ℚ)
    (s : SimState) (d : DateInfo) (hpos : 0 < p.startingEquity)
    (h1 : p.startingEquity ≤ s.peakEquity)
    (h2 : s.currentDrawdown.isNum = true)
    (h3 : s.maxDrawdown.isNum = true) :
    p.startingEquity ≤ (dayStep p draws s d).peakEquity ∧
    (dayStep p draws s d).currentDrawdown.isNum = true ∧
    (dayStep p draws s d).maxDrawdown.isNum = true := by
  obtain ⟨f1, f2, f3, f4, f5, f6, f7, f8, f9⟩ :=
    tradeStep_iter_fixed p draws d p.tradesPerDay (s.runningEquity, s)
  have hpk : p.startingEquity ≤
      ((tradeStep p draws d)^[p.tradesPerDay] (s.runningEquity, s)).2.peakEquity := by
    rw [f3]; exact h1
  have hpkne :
      ((tradeStep p draws d)^[p.tradesPerDay] (s.runningEquity, s)).2.peakEquity
        ≠ 0 := by
    rw [f3]; exact ne_of_gt (lt_of_lt_of_le hpos h1)
  unfold dayStep
  dsimp only
  split
  · next hgt =>
      refine ⟨le_of_lt (lt_of_le_of_lt hpk hgt), rfl, ?_⟩
      simp only [f5]
      exact h3
  · next hng =>
      have hpct := drawdownPercentage_isNum
        ((tradeStep p draws d)^[p.tradesPerDay] (s.runningEquity, s)).2.peakEquity
        ((tradeStep p draws d)^[p.tradesPerDay] (s.runningEquity, s)).1 hpkne
      split
      · split
        · exact ⟨hpk, hpct, hpct⟩
        · refine ⟨hpk, hpct, ?_⟩
          simp only [f5]
          exact h3
      · refine ⟨hpk, ?_, ?_⟩
        · simp only [f4]; exact h2
        · simp only [f5]; exact h3

theorem runState_drawdown_inv (p : SimulationSettings) (draws : ℕ → ℚ)
    (hpos : 0 < p.startingEquity) :
    p.startingEquity ≤ (runState p draws).peakEquity ∧
    (runState p draws).currentDrawdown.isNum = true ∧
    (runState p draws).maxDrawdown.isNum = true := by
  exact foldl_preserve
    (fun s : SimState => p.startingEquity ≤ s.peakEquity ∧
      s.currentDrawdown.isNum = true ∧ s.maxDrawdown.isNum = true)
    (dayStep p draws)
    (fun s d hs => dayStep_drawdown_inv p draws s d hpos hs.1 hs.2.1 hs.2.2)
    (generateDates p.startDate p.endDate) (initState p)
    ⟨le_refl _, rfl, rfl⟩

theorem mkRow_winRate_isNum (b : BucketStats) :
    (mkRow b).winRate.isNum = true := by
  have h := jsWinRate_eq b.wins b.losses 0
  show (jsOr (jsMul (jsDiv (JSNum.num b.wins)
    (JSNum.num (b.wins + b.losses))) (JSNum.num 100)) (JSNum.num 0)).isNum = true
  rw [h]
  split <;> rfl

theorem runSummary_avgRPerDay_isNum (p : SimulationSettings) (draws : ℕ → ℚ)
    (h4 : 0 < p.riskPerTrade) :
    (runSummary p draws).avgRPerDay.isNum = true := by
  rw [runSummary_avgRPerDay]
  simp only [runState]
  cases h : generateDates p.startDate p.endDate with
  | nil =>
      simp only [List.foldl_nil, List.length_nil, Nat.cast_zero, mul_zero]
      have hre : (initState p).runningEquity = p.startingEquity := rfl
      rw [hre]
      simp only [jsDiv, jsMul, jsOr, jsTruthy, sub_self]
      simp [JSNum.isNum]
  | cons d t =>
      have hden : p.riskPerTrade * ((d :: t).length : ℚ) ≠ 0 := by
        have : (0 : ℚ) < ((d :: t).length : ℚ) := by
          simp
          positivity
        positivity
      rw [jsDiv_num_isNum _ _ hden]
      exact jsOr_num_isNum _ _

theorem runSummary_avgTradesPerDay_isNum (p : SimulationSettings)
    (draws : ℕ → ℚ) :
    (runSummary p draws).avgTradesPerDay.isNum = true := by
  rw [runSummary_avgTradesPerDay]
  simp only [runState]
  cases h : generateDates p.startDate p.endDate with
  | nil =>
      simp only [List.foldl_nil, List.length_nil, Nat.cast_zero]
      have htr : (initState p).totalTrades = 0 := rfl
      rw [htr]
      simp only [jsDiv, jsMul, jsOr, jsTruthy]
      simp [JSNum.isNum]
  | cons d t =>
      have hden : ((d :: t).length : ℚ) ≠ 0 := by
        have : (0 : ℚ) < ((d :: t).length : ℚ) := by simp; positivity
        exact ne_of_gt this
      rw [jsDiv_num_isNum _ _ hden]
      exact jsOr_num_isNum _ _

/-- C2 counterexample: with starting equity 0 (the claim allows any
starting equity) and every other parameter in the stated valid ranges, the
reported max drawdown is `Infinity`: the drawdown division
`(peak − dayEquity) / peak` divides a positive amount by a zero peak. -/
theorem c2_counterexample :
    (0 : ℚ) ≤ pZeroEquity.winRate ∧ pZeroEquity.winRate ≤ 100 ∧
    0 < pZeroEquity.tradesPerDay ∧ (0 : ℚ) < pZeroEquity.riskPerTrade ∧
    (0 : ℚ) < pZeroEquity.riskReward ∧
    (runSummary pZeroEquity allLossDraws).maxDrawdown = JSNum.posInf ∧
    (runSummary pZeroEquity allLossDraws).maxDrawdown.isNum = false := by
  decide

/-- C2 (amended): with the valid parameter ranges of the claim strengthened by
`0 < startingEquity` (the counterexample shows starting equity 0 produces an
infinite drawdown), every `JSNum`-valued summary field is an ordinary finite
number — never NaN or ±Infinity; the remaining numeric fields (totals,
equities, profit, streak lengths) are rational/natural by construction. -/
theorem c2_no_nan_or_inf (p : SimulationSettings) (draws : ℕ → ℚ)
    (h1 : 0 ≤ p.winRate) (h2 : p.winRate ≤ 100) (h3 : 0 < p.tradesPerDay)
    (h4 : (0 : ℚ) < p.riskPerTrade) (h5 : (0 : ℚ) < p.riskReward)
    (h6 : (0 : ℚ) < p.startingEquity) :
    (runSummary p draws).winRate.isNum = true ∧
    (runSummary p draws).avgRPerDay.isNum = true ∧
    (runSummary p draws).avgRPerWeek.isNum = true ∧
    (runSummary p draws).avgTradesPerDay.isNum = true ∧
    (runSummary p draws).maxDrawdown.isNum = true ∧
    ((runSummary p draws).monthlyBreakdown.all (fun b => b.winRate.isNum)) = true ∧
    ((runSummary p draws).weeklyBreakdown.all (fun b => b.winRate.isNum)) = true := by
  refine ⟨?_, ?_, ?_, ?_, ?_, ?_, ?_⟩
  · rw [runSummary_winRate_eq]
    split <;> rfl
  · exact runSummary_avgRPerDay_isNum p draws h4
  · rw [runSummary_avgRPerWeek]
    have hd := runSummary_avgRPerDay_isNum p draws h4
    cases hx : (runSummary p draws).avgRPerDay <;> rw [hx] at hd <;>
      simp_all [jsMul, JSNum.isNum]
  · exact runSummary_avgTradesPerDay_isNum p draws
  · rw [runSummary_maxDrawdown]
    exact (runState_drawdown_inv p draws h6).2.2
  · rw [runSummary_monthlyBreakdown]
    simp only [List.all_eq_true, List.mem_map]
    rintro x ⟨b, hb, rfl⟩
    exact mkRow_winRate_isNum b
  · rw [runSummary_weeklyBreakdown]
    simp only [List.all_eq_true, List.mem_map]
    rintro x ⟨b, hb, rfl⟩
    exact mkRow_winRate_isNum b

/-- Witness for C2: the amended theorem applied to a concrete valid run. -/
theorem c2_witness :
    (runSummary pSpec8 allLossDraws).winRate.isNum = true ∧
    (runSummary pSpec8 allLossDraws).avgRPerDay.isNum = true ∧
    (runSummary pSpec8 allLossDraws).avgRPerWeek.isNum = true ∧
    (runSummary pSpec8 allLossDraws).avgTradesPerDay.isNum = true ∧
    (runSummary pSpec8 allLossDraws).maxDrawdown.isNum = true ∧
    ((runSummary pSpec8 allLossDraws).monthlyBreakdown.all
      (fun b => b.winRate.isNum)) = true ∧
    ((runSummary pSpec8 allLossDraws).weeklyBreakdown.all
      (fun b => b.winRate.isNum)) = true :=
  c2_no_nan_or_inf pSpec8 allLossDraws (by decide) (by decide) (by decide)
    (by decide) (by decide) (by decide)

theorem tradeStep_congr (p : SimulationSettings) (draws draws' : ℕ → ℚ)
    (h : ∀ n, (draws n < targetWinRate p) ↔ (draws' n < targetWinRate p))
    (d : DateInfo) (x : ℚ × SimState) :
    tradeStep p draws d x = tradeStep p draws' d x := by
  unfold tradeStep
  dsimp only
  by_cases hw : draws x.2.drawIdx < targetWinRate p
  · rw [if_pos hw, if_pos ((h _).mp hw)]
  · rw [if_neg hw, if_neg (fun hc => hw ((h _).mpr hc))]

theorem dayStep_congr (p : SimulationSettings) (draws draws' : ℕ → ℚ)
    (h : ∀ n, (draws n < targetWinRate p) ↔ (draws' n < targetWinRate p))
    (s : SimState) (d : DateInfo) :
    dayStep p draws s d = dayStep p draws' s d := by
  have hf : tradeStep p draws d = tradeStep p draws' d :=
    funext (tradeStep_congr p draws draws' h d)
  unfold dayStep
  rw [hf]

theorem runState_congr (p : SimulationSettings) (draws draws' : ℕ → ℚ)
    (h : ∀ n, (draws n < targetWinRate p) ↔ (draws' n < targetWinRate p)) :
    runState p draws = runState p draws' := by
  have hd : dayStep p draws = dayStep p draws' :=
    funext fun s => funext fun d => dayStep_congr p draws draws' h s d
  unfold runState
  rw [hd]

theorem runSummary_congr (p : SimulationSettings) (draws draws' : ℕ → ℚ)
    (h : ∀ n, (draws n < targetWinRate p) ↔ (draws' n < targetWinRate p)) :
    runSummary p draws = runSummary p draws' := by
  unfold runSummary
  rw [runState_congr p draws draws' h]

/-- C8: the all-loss scenario of spec section 8 (2025-01-01 to 2025-01-10, target
win rate 0, one trade per day, risk 100, 1:2 reward, starting equity 1000):
for any draw stream from `[0, 1)` (nonnegativity suffices) every trial
loses, there are 8 trading days and 8 trades, final equity is 200, max
drawdown 80%, max win streak 0 and max loss streak 8. -/
theorem c8_all_loss_scenario (draws : ℕ → ℚ) (h : ∀ n, 0 ≤ draws n) :
    (generateDates pSpec8.startDate pSpec8.endDate).length = 8 ∧
    (runState pSpec8 draws).totalWins = 0 ∧
    (runState pSpec8 draws).totalLosses = 8 ∧
    (runState pSpec8 draws).totalTrades = 8 ∧
    (runSummary pSpec8 draws).finalEquity = 200 ∧
    (runSummary pSpec8 draws).maxDrawdown = JSNum.num 80 ∧
    (runSummary pSpec8 draws).maxWinStreak = 0 ∧
    (runSummary pSpec8 draws).maxLossStreak = 8 := by
  have h0 : targetWinRate pSpec8 = 0 := by decide
  have hiff : ∀ n, (draws n < targetWinRate pSpec8) ↔
      (allLossDraws n < targetWinRate pSpec8) := by
    intro n
    rw [h0]
    constructor
    · intro hc
      exact absurd hc (not_lt.mpr (h n))
    · intro hc
      exact absurd hc (by norm_num [allLossDraws])
  rw [runState_congr pSpec8 draws allLossDraws hiff,
    runSummary_congr pSpec8 draws allLossDraws hiff]
  decide

/-- Witness for C8 at the constant draw stream 1. -/
theorem c8_witness :
    (generateDates pSpec8.startDate pSpec8.endDate).length = 8 ∧
    (runState pSpec8 allLossDraws).totalWins = 0 ∧
    (runState pSpec8 allLossDraws).totalLosses = 8 ∧
    (runState pSpec8 allLossDraws).totalTrades = 8 ∧
    (runSummary pSpec8 allLossDraws).finalEquity = 200 ∧
    (runSummary pSpec8 allLossDraws).maxDrawdown = JSNum.num 80 ∧
    (runSummary pSpec8 allLossDraws).maxWinStreak = 0 ∧
    (runSummary pSpec8 allLossDraws).maxLossStreak = 8 :=
  c8_all_loss_scenario allLossDraws (by intro n; norm_num [allLossDraws])

theorem jsLe_zero_ne_nan {x : JSNum} (h : jsLe (JSNum.num 0) x = true) :
    x ≠ JSNum.nan := by
  cases x <;> simp_all [jsLe]

theorem dayStep_maxDrawdown_step (p : SimulationSettings) (draws : ℕ → ℚ)
    (s : SimState) (d : DateInfo) :
    (dayStep p draws s d).maxDrawdown = s.maxDrawdown ∨
      (jsGt (dayStep p draws s d).maxDrawdown s.maxDrawdown = true ∧
        (dayStep p draws s d).maxDrawdown = (dayStep p draws s d).currentDrawdown) := by
  obtain ⟨f1, f2, f3, f4, f5, f6, f7, f8, f9⟩ :=
    tradeStep_iter_fixed p draws d p.tradesPerDay (s.runningEquity, s)
  unfold dayStep
  dsimp only
  split
  · left
    exact f5
  · split
    · split
      · next hgt =>
          right
          rw [f5] at hgt
          exact ⟨hgt, rfl⟩
      · left
        exact f5
    · left
      exact f5

theorem dayStep_maxDrawdown_mono (p : SimulationSettings) (draws : ℕ → ℚ)
    (s : SimState) (d : DateInfo) (h : jsLe (JSNum.num 0) s.maxDrawdown = true) :
    jsLe s.maxDrawdown (dayStep p draws s d).maxDrawdown = true := by
  rcases dayStep_maxDrawdown_step p draws s d with heq | ⟨hgt, _⟩
  · rw [heq]
    exact jsLe_refl_of_not_nan _ (jsLe_zero_ne_nan h)
  · exact jsLe_of_jsGt hgt

theorem foldl_maxDrawdown_mono (p : SimulationSettings) (draws : ℕ → ℚ) :
    ∀ (l : List DateInfo) (s : SimState),
      jsLe (JSNum.num 0) s.maxDrawdown = true →
      jsLe (JSNum.num 0) ((l.foldl (dayStep p draws) s)).maxDrawdown = true ∧
      jsLe s.maxDrawdown ((l.foldl (dayStep p draws) s)).maxDrawdown = true := by
  intro l
  induction l with
  | nil =>
      intro s hs
      exact ⟨hs, jsLe_refl_of_not_nan _ (jsLe_zero_ne_nan hs)⟩
  | cons d t ih =>
      intro s hs
      have hstep := dayStep_maxDrawdown_mono p draws s d hs
      have hz : jsLe (JSNum.num 0) (dayStep p draws s d).maxDrawdown = true :=
        jsLe_trans hs hstep
      have hrec := ih (dayStep p draws s d) hz
      exact ⟨hrec.1, jsLe_trans hstep hrec.2⟩

/-- C3: along the day-by-day pass the recorded max drawdown percentage is
monotonically non-decreasing and never below 0, and one day step changes
the max-drawdown record only when the current drawdown strictly exceeds the
previous maximum (in which case the record becomes the current drawdown). -/
theorem c3_max_drawdown_monotone (p : SimulationSettings) (draws : ℕ → ℚ) :
    (∀ i j, i ≤ j →
      jsLe (runUpTo p draws i).maxDrawdown (runUpTo p draws j).maxDrawdown
        = true) ∧
    (∀ i, jsLe (JSNum.num 0) (runUpTo p draws i).maxDrawdown = true) ∧
    (∀ s d, (dayStep p draws s d).maxDrawdown = s.maxDrawdown ∨
      (jsGt (dayStep p draws s d).maxDrawdown s.maxDrawdown = true ∧
        (dayStep p draws s d).maxDrawdown = (dayStep p draws s d).currentDrawdown)) := by
  have hinit : jsLe (JSNum.num 0) (initState p).maxDrawdown = true := by
    simp [initState, jsLe]
  have hup : ∀ i, jsLe (JSNum.num 0) (runUpTo p draws i).maxDrawdown = true := by
    intro i
    exact (foldl_maxDrawdown_mono p draws _ _ hinit).1
  refine ⟨?_, hup, dayStep_maxDrawdown_step p draws⟩
  intro i j hij
  have hsplit : (generateDates p.startDate p.endDate).take j =
      (generateDates p.startDate p.endDate).take i ++
        ((generateDates p.startDate p.endDate).drop i).take (j - i) := by
    rw [← List.take_add]
    congr 1
    omega
  unfold runUpTo
  rw [hsplit, List.foldl_append]
  exact (foldl_maxDrawdown_mono p draws _ _ (hup i)).2

/-- Witness for C3 on a concrete run and a concrete pair of prefixes. -/
theorem c3_witness :
    jsLe (runUpTo pSpec8 allLossDraws 3).maxDrawdown
      (runUpTo pSpec8 allLossDraws 8).maxDrawdown = true :=
  (c3_max_drawdown_monotone pSpec8 allLossDraws).1 3 8 (by omega)

theorem tradeStep_excl (p : SimulationSettings) (draws : ℕ → ℚ)
    (d : DateInfo) (x : ℚ × SimState) :
    exclStreaks (tradeStep p draws d x).2 := by
  unfold tradeStep exclStreaks
  dsimp only
  split
  · split <;> simp
  · split <;> simp

theorem dayStep_excl (p : SimulationSettings) (draws : ℕ → ℚ)
    (s : SimState) (d : DateInfo) (hs : exclStreaks s) :
    exclStreaks (dayStep p draws s d) := by
  obtain ⟨c1, c2, c3, c4, c5, c6, c7, c8, c9⟩ := dayStep_commit p draws s d
  unfold exclStreaks
  rw [c7, c8]
  cases hn : p.tradesPerDay with
  | zero =>
      rw [Function.iterate_zero]
      exact hs
  | succ n =>
      rw [Function.iterate_succ_apply']
      exact tradeStep_excl p draws d _

/-- C7: at every point of the trade-by-trade pass the current win streak
and current loss streak are never both positive: every single trade leaves
the exclusive-streak invariant true (first conjunct), so every day-prefix
state satisfies it (second conjunct); a winning trade resets the loss
streak to 0 and a losing trade resets the win streak to 0 (third
conjunct). -/
theorem c7_streak_exclusivity (p : SimulationSettings) (draws : ℕ → ℚ) :
    (∀ (d : DateInfo) (x : ℚ × SimState), exclStreaks (tradeStep p draws d x).2) ∧
    (∀ i, exclStreaks (runUpTo p draws i)) ∧
    (∀ (d : DateInfo) (x : ℚ × SimState),
      (draws x.2.drawIdx < targetWinRate p →
        (tradeStep p draws d x).2.currentLossStreak = 0) ∧
      (¬ draws x.2.drawIdx < targetWinRate p →
        (tradeStep p draws d x).2.currentWinStreak = 0)) := by
  refine ⟨tradeStep_excl p draws, ?_, ?_⟩
  · intro i
    exact foldl_preserve exclStreaks (dayStep p draws)
      (fun s d hs => dayStep_excl p draws s d hs)
      ((generateDates p.startDate p.endDate).take i) (initState p)
      (Or.inl rfl)
  · intro d x
    constructor
    · intro hw
      unfold tradeStep
      dsimp only
      rw [if_pos hw]
      split <;> simp
    · intro hw
      unfold tradeStep
      dsimp only
      rw [if_neg hw]
      split <;> simp

/-- Witness for C7 on a concrete run state and a concrete losing trade. -/
theorem c7_witness :
    exclStreaks (runUpTo pSpec8 allLossDraws 8) ∧
    (tradeStep pSpec8 allLossDraws (mkDateInfo (daysFromCivil 2025 1 1))
      ((1000 : ℚ), initState pSpec8)).2.currentWinStreak = 0 :=
  ⟨(c7_streak_exclusivity pSpec8 allLossDraws).2.1 8,
   ((c7_streak_exclusivity pSpec8 allLossDraws).2.2 _ _).2 (by decide)⟩

theorem mkDateInfo_dateObj (z : ℕ) : (mkDateInfo z).dateObj = z := rfl

/-- C6: the calendar generator output contains no Saturday or Sunday, its
length is the number of weekdays in the inclusive range, the days are in
strictly increasing chronological order, and an end date before the start
date yields the empty sequence. -/
theorem c6_generate_dates (s e : ℕ) :
    ((generateDates s e).all (fun d => isWeekday d.dateObj)) = true ∧
    (generateDates s e).length = countWeekdays s e ∧
    List.Pairwise (fun a b : DateInfo => a.dateObj < b.dateObj)
      (generateDates s e) ∧
    (e < s → generateDates s e = []) := by
  refine ⟨?_, ?_, ?_, ?_⟩
  · simp only [generateDates, List.all_eq_true, List.mem_map]
    rintro x ⟨z, hz, rfl⟩
    rw [mkDateInfo_dateObj]
    exact (List.mem_filter.mp hz).2
  · simp [generateDates, countWeekdays]
  · unfold generateDates
    rw [List.pairwise_map]
    have hr : List.Pairwise (fun a b : ℕ => a < b) (List.range' s (e + 1 - s)) :=
      List.pairwise_lt_range' s (e + 1 - s)
    have hf : List.Pairwise (fun a b : ℕ => a < b)
        ((List.range' s (e + 1 - s)).filter isWeekday) :=
      List.Pairwise.sublist (List.filter_sublist _) hr
    exact hf.imp (by
      intro a b hab
      rw [mkDateInfo_dateObj, mkDateInfo_dateObj]
      exact hab)
  · intro hlt
    have h0 : e + 1 - s = 0 := by omega
    unfold generateDates
    rw [h0]
    simp

/-- Witness for C6: an inverted range produces no trading days. -/
theorem c6_witness : generateDates 5 3 = [] :=
  (c6_generate_dates 5 3).2.2.2 (by omega)

theorem hasKey_iff (l : List BucketStats) (k : String) :
    hasKey l k = true ↔ ∃ b ∈ l, b.key = k := by
  simp [hasKey, List.any_eq_true]

theorem updateBucket_keys (k : String) (f : BucketStats → BucketStats)
    (hf : ∀ b, (f b).key = b.key) :
    ∀ l : List BucketStats, bucketKeys (updateBucket k f l) = bucketKeys l := by
  intro l
  induction l with
  | nil => rfl
  | cons b bs ih =>
      unfold updateBucket
      split
      · simp [bucketKeys, hf]
      · simp only [bucketKeys, List.map_cons] at ih ⊢
        rw [ih]

theorem hasKey_updateBucket (k k' : String) (f : BucketStats → BucketStats)
    (hf : ∀ b, (f b).key = b.key) :
    ∀ l : List BucketStats, hasKey (updateBucket k f l) k' = hasKey l k' := by
  intro l
  induction l with
  | nil => rfl
  | cons b bs ih =>
      unfold updateBucket
      split
      · simp [hasKey, hf]
      · simp only [hasKey, List.any_cons] at ih ⊢
        rw [ih]

theorem updateBucket_cons_pos (k : String) (f : BucketStats → BucketStats)
    (b : BucketStats) (bs : List BucketStats) (h : (b.key == k) = true) :
    updateBucket k f (b :: bs) = f b :: bs := by
  simp only [updateBucket]
  rw [if_pos h]

theorem updateBucket_cons_neg (k : String) (f : BucketStats → BucketStats)
    (b : BucketStats) (bs : List BucketStats) (h : ¬ (b.key == k) = true) :
    updateBucket k f (b :: bs) = b :: updateBucket k f bs := by
  simp only [updateBucket]
  rw [if_neg h]

theorem find?_updateBucket_self (k : String) (f : BucketStats → BucketStats)
    (hf : ∀ b, (f b).key = b.key) :
    ∀ l : List BucketStats,
      (updateBucket k f l).find? (fun b => b.key == k) =
        (l.find? (fun b => b.key == k)).map f := by
  intro l
  induction l with
  | nil => rfl
  | cons b bs ih =>
      by_cases hb : (b.key == k) = true
      · rw [updateBucket_cons_pos k f b bs hb]
        have hfb : ((f b).key == k) = true := by rw [hf]; exact hb
        simp only [List.find?_cons, hfb, hb]
        rfl
      · rw [updateBucket_cons_neg k f b bs hb]
        have hb' : (b.key == k) = false := by simpa using hb
        simp only [List.find?_cons, hb']
        exact ih

theorem find?_updateBucket_other (k k' : String) (hkk : k' ≠ k)
    (f : BucketStats → BucketStats) (hf : ∀ b, (f b).key = b.key) :
    ∀ l : List BucketStats,
      (updateBucket k f l).find? (fun b => b.key == k') =
        l.find? (fun b => b.key == k') := by
  intro l
  induction l with
  | nil => rfl
  | cons b bs ih =>
      by_cases hb : (b.key == k) = true
      · rw [updateBucket_cons_pos k f b bs hb]
        have hbk : b.key = k := by simpa using hb
        have hb' : ((f b).key == k') = false := by
          rw [hf, hbk]
          simp [Ne.symm hkk]
        have hb'' : (b.key == k') = false := by
          rw [hbk]
          simp [Ne.symm hkk]
        simp only [List.find?_cons, hb', hb'']
      · rw [updateBucket_cons_neg k f b bs hb]
        by_cases hb2 : (b.key == k') = true
        · simp only [List.find?_cons, hb2]
        · have hb2' : (b.key == k') = false := by simpa using hb2
          simp only [List.find?_cons, hb2']
          exact ih

theorem updateBucket_missing (k : String) (f : BucketStats → BucketStats) :
    ∀ l : List BucketStats, hasKey l k = false → updateBucket k f l = l := by
  intro l
  induction l with
  | nil => intro _; rfl
  | cons b bs ih =>
      intro h
      simp only [hasKey, List.any_cons, Bool.or_eq_false_iff] at h
      rw [updateBucket_cons_neg k f b bs (by simp [h.1])]
      have hbs : hasKey bs k = false := by
        simp only [hasKey]
        exact h.2
      rw [ih hbs]

theorem updateBucket_comp (k : String) (f g : BucketStats → BucketStats)
    (hg : ∀ b, (g b).key = b.key) :
    ∀ l : List BucketStats,
      updateBucket k f (updateBucket k g l) =
        updateBucket k (fun b => f (g b)) l := by
  intro l
  induction l with
  | nil => rfl
  | cons b bs ih =>
      by_cases hb : (b.key == k) = true
      · rw [updateBucket_cons_pos k g b bs hb,
          updateBucket_cons_pos k f (g b) bs (by rw [hg]; exact hb),
          updateBucket_cons_pos k (fun b => f (g b)) b bs hb]
      · rw [updateBucket_cons_neg k g b bs hb,
          updateBucket_cons_neg k f b _ hb,
          updateBucket_cons_neg k (fun b => f (g b)) b bs hb,
          ih]

theorem updateBucket_sum_trades_succ (k : String)
    (f : BucketStats → BucketStats) (hf : ∀ b, (f b).trades = b.trades + 1) :
    ∀ l : List BucketStats, hasKey l k = true →
      ((updateBucket k f l).map (fun b => b.trades)).sum =
        (l.map (fun b => b.trades)).sum + 1 := by
  intro l
  induction l with
  | nil => intro h; simp [hasKey] at h
  | cons b bs ih =>
      intro h
      by_cases hb : (b.key == k) = true
      · rw [updateBucket_cons_pos k f b bs hb]
        simp [hf]
        omega
      · rw [updateBucket_cons_neg k f b bs hb]
        have hbs : hasKey bs k = true := by
          simp only [hasKey, List.any_cons, hb] at h
          simpa [hasKey] using h
        simp only [List.map_cons, List.sum_cons, ih hbs]
        omega

theorem updateBucket_all (P : BucketStats → Bool) (k : String)
    (f : BucketStats → BucketStats) (hPf : ∀ b, P b = true → P (f b) = true) :
    ∀ l : List BucketStats, l.all P = true → (updateBucket k f l).all P = true := by
  intro l
  induction l with
  | nil => intro _; rfl
  | cons b bs ih =>
      intro h
      simp only [List.all_cons, Bool.and_eq_true] at h
      by_cases hb : (b.key == k) = true
      · rw [updateBucket_cons_pos k f b bs hb]
        simp only [List.all_cons, Bool.and_eq_true]
        exact ⟨hPf b h.1, h.2⟩
      · rw [updateBucket_cons_neg k f b bs hb]
        simp only [List.all_cons, Bool.and_eq_true]
        exact ⟨h.1, ih h.2⟩

theorem hasKey_registerKey (l : List BucketStats) (k0 k : String) :
    hasKey (registerKey l k0) k = (hasKey l k || (k0 == k)) := by
  unfold registerKey
  split
  · next hp =>
      by_cases hk : k0 = k
      · subst hk
        simp [hp]
      · have hkf : (k0 == k) = false := by simpa using hk
        simp [hkf]
  · simp [hasKey, List.any_append]

theorem hasKey_foldl_registerKey (k : String) :
    ∀ (keys : List String) (acc : List BucketStats),
      hasKey (keys.foldl registerKey acc) k = true ↔
        (hasKey acc k = true ∨ k ∈ keys) := by
  intro keys
  induction keys with
  | nil => intro acc; simp
  | cons k0 rest ih =>
      intro acc
      simp only [List.foldl_cons]
      rw [ih, hasKey_registerKey]
      simp only [Bool.or_eq_true, beq_iff_eq, List.mem_cons]
      constructor
      · rintro ((h | h) | h)
        · exact Or.inl h
        · exact Or.inr (Or.inl h.symm)
        · exact Or.inr (Or.inr h)
      · rintro (h | h | h)
        · exact Or.inl (Or.inl h)
        · exact Or.inl (Or.inr h.symm)
        · exact Or.inr h

theorem hasKey_initBuckets (keys : List String) (k : String) :
    hasKey (initBuckets keys) k = true ↔ k ∈ keys := by
  unfold initBuckets
  rw [hasKey_foldl_registerKey]
  simp [hasKey]

theorem foldl_registerKey_mem (P : BucketStats → Prop)
    (hP : ∀ k, P ⟨k, 0, 0, 0, 0⟩) :
    ∀ (keys : List String) (acc : List BucketStats), (∀ b ∈ acc, P b) →
      ∀ b ∈ keys.foldl registerKey acc, P b := by
  intro keys
  induction keys with
  | nil => intro acc h; exact h
  | cons k0 rest ih =>
      intro acc h
      refine ih (registerKey acc k0) ?_
      intro b hb
      unfold registerKey at hb
      split at hb
      · exact h b hb
      · rcases List.mem_append.mp hb with h1 | h1
        · exact h b h1
        · rcases List.mem_singleton.mp h1 with rfl
          exact hP k0

theorem initBuckets_zero (keys : List String) :
    ∀ b ∈ initBuckets keys,
      b.wins = 0 ∧ b.losses = 0 ∧ b.profitLoss = 0 ∧ b.trades = 0 := by
  refine foldl_registerKey_mem _ ?_ keys [] ?_
  · intro k
    exact ⟨rfl, rfl, rfl, rfl⟩
  · intro b hb
    simp at hb

theorem foldl_registerKey_nodup :
    ∀ (keys : List String) (acc : List BucketStats),
      acc.Pairwise (fun a b => a.key ≠ b.key) →
      (keys.foldl registerKey acc).Pairwise (fun a b => a.key ≠ b.key) := by
  intro keys
  induction keys with
  | nil => intro acc h; exact h
  | cons k0 rest ih =>
      intro acc h
      refine ih (registerKey acc k0) ?_
      unfold registerKey
      split
      · exact h
      · next hnk =>
          rw [List.pairwise_append]
          refine ⟨h, by simp, ?_⟩
          intro a ha b hb
          rcases List.mem_singleton.mp hb with rfl
          intro hk
          exact hnk ((hasKey_iff acc k0).mpr ⟨a, ha, hk⟩)

theorem initBuckets_nodup (keys : List String) :
    (initBuckets keys).Pairwise (fun a b => a.key ≠ b.key) :=
  foldl_registerKey_nodup keys [] (List.Pairwise.nil)

theorem find?_of_mem_nodup :
    ∀ (l : List BucketStats), l.Pairwise (fun a b => a.key ≠ b.key) →
      ∀ b ∈ l, l.find? (fun x => x.key == b.key) = some b := by
  intro l
  induction l with
  | nil =>
      intro _ b hb
      simp at hb
  | cons a t ih =>
      intro hp b hb
      rcases List.mem_cons.mp hb with rfl | hbt
      · simp [List.find?_cons]
      · have hne : a.key ≠ b.key := (List.pairwise_cons.mp hp).1 b hbt
        have hf : (a.key == b.key) = false := by simpa using hne
        simp only [List.find?_cons, hf]
        exact ih (List.pairwise_cons.mp hp).2 b hbt

theorem foldl_preserve_mem {α β : Type} (P : α → Prop) (f : α → β → α) :
    ∀ (l : List β) (s : α), (∀ d ∈ l, ∀ s', P s' → P (f s' d)) → P s →
      P (l.foldl f s) := by
  intro l
  induction l with
  | nil => intro s _ hs; exact hs
  | cons d t ih =>
      intro s h hs
      exact ih (f s d) (fun d' hd' => h d' (List.mem_cons_of_mem d hd'))
        (h d (List.mem_cons_self d t) s hs)

theorem tradeStep_buckets (p : SimulationSettings) (draws : ℕ → ℚ)
    (d : DateInfo) (x : ℚ × SimState) :
    (tradeStep p draws d x).2.totalTrades = x.2.totalTrades + 1 ∧
    (((tradeStep p draws d x).2.monthlyStats =
        updateBucket d.month (winUpdate p) x.2.monthlyStats ∧
      (tradeStep p draws d x).2.weeklyStats =
        updateBucket d.week (winUpdate p) x.2.weeklyStats) ∨
     ((tradeStep p draws d x).2.monthlyStats =
        updateBucket d.month (lossUpdate p) x.2.monthlyStats ∧
      (tradeStep p draws d x).2.weeklyStats =
        updateBucket d.week (lossUpdate p) x.2.weeklyStats)) := by
  unfold tradeStep
  dsimp only
  split
  · split <;>
      refine ⟨rfl, Or.inl ⟨?_, ?_⟩⟩
    case' isTrue.isTrue.refine_1 | isTrue.isFalse.refine_1 =>
      exact updateBucket_comp d.month
        (fun b => { b with trades := b.trades + 1 })
        (fun b => { b with wins := b.wins + 1
                           profitLoss := b.profitLoss + rewardPerTrade p })
        (fun b => rfl) x.2.monthlyStats
    case' isTrue.isTrue.refine_2 | isTrue.isFalse.refine_2 =>
      exact updateBucket_comp d.week
        (fun b => { b with trades := b.trades + 1 })
        (fun b => { b with wins := b.wins + 1
                           profitLoss := b.profitLoss + rewardPerTrade p })
        (fun b => rfl) x.2.weeklyStats
  · split <;>
      refine ⟨rfl, Or.inr ⟨?_, ?_⟩⟩
    case' isTrue.refine_1 | isFalse.refine_1 =>
      exact updateBucket_comp d.month
        (fun b => { b with trades := b.trades + 1 })
        (fun b => { b with losses := b.losses + 1
                           profitLoss := b.profitLoss - p.riskPerTrade })
        (fun b => rfl) x.2.monthlyStats
    case' isTrue.refine_2 | isFalse.refine_2 =>
      exact updateBucket_comp d.week
        (fun b => { b with trades := b.trades + 1 })
        (fun b => { b with losses := b.losses + 1
                           profitLoss := b.profitLoss - p.riskPerTrade })
        (fun b => rfl) x.2.weeklyStats

theorem tradeStep_bucketInvariant (p : SimulationSettings) (draws : ℕ → ℚ)
    (dates : List DateInfo) (d : DateInfo) (hd : d ∈ dates)
    (x : ℚ × SimState) (hx : bucketInvariant dates x.2) :
    bucketInvariant dates (tradeStep p draws d x).2 := by
  obtain ⟨h1, h2, h3, h4, h5⟩ := hx
  obtain ⟨hm, hw⟩ := h5 d hd
  obtain ⟨ht, hcase⟩ := tradeStep_buckets p draws d x
  have hall : ∀ (k : String) (g : BucketStats → BucketStats),
      (∀ b, (g b).wins + (g b).losses = b.wins + b.losses + 1) →
      (∀ b, (g b).trades = b.trades + 1) →
      ∀ l, (l.all fun b => b.wins + b.losses == b.trades) = true →
        ((updateBucket k g l).all fun b => b.wins + b.losses == b.trades) = true := by
    intro k g hg1 hg2 l hl
    refine updateBucket_all _ k g ?_ l hl
    intro b hb
    simp only [beq_iff_eq] at hb ⊢
    rw [hg1, hg2, hb]
  rcases hcase with ⟨hm', hw'⟩ | ⟨hm', hw'⟩ <;>
    refine ⟨?_, ?_, ?_, ?_, ?_⟩
  · rw [hm']
    exact hall d.month (winUpdate p) (fun b => by simp [winUpdate]; omega)
      (fun b => rfl) _ h1
  · rw [hm', ht,
      updateBucket_sum_trades_succ d.month (winUpdate p) (fun b => rfl) _ hm, h2]
  · rw [hw']
    exact hall d.week (winUpdate p) (fun b => by simp [winUpdate]; omega)
      (fun b => rfl) _ h3
  · rw [hw', ht,
      updateBucket_sum_trades_succ d.week (winUpdate p) (fun b => rfl) _ hw, h4]
  · intro d' hd'
    rw [hm', hw',
      hasKey_updateBucket d.month d'.month (winUpdate p) (fun b => rfl),
      hasKey_updateBucket d.week d'.week (winUpdate p) (fun b => rfl)]
    exact h5 d' hd'
  · rw [hm']
    exact hall d.month (lossUpdate p) (fun b => by simp [lossUpdate]; omega)
      (fun b => rfl) _ h1
  · rw [hm', ht,
      updateBucket_sum_trades_succ d.month (lossUpdate p) (fun b => rfl) _ hm, h2]
  · rw [hw']
    exact hall d.week (lossUpdate p) (fun b => by simp [lossUpdate]; omega)
      (fun b => rfl) _ h3
  · rw [hw', ht,
      updateBucket_sum_trades_succ d.week (lossUpdate p) (fun b => rfl) _ hw, h4]
  · intro d' hd'
    rw [hm', hw',
      hasKey_updateBucket d.month d'.month (lossUpdate p) (fun b => rfl),
      hasKey_updateBucket d.week d'.week (lossUpdate p) (fun b => rfl)]
    exact h5 d' hd'

theorem dayStep_bucketInvariant (p : SimulationSettings) (draws : ℕ → ℚ)
    (dates : List DateInfo) (d : DateInfo) (hd : d ∈ dates)
    (s : SimState) (hs : bucketInvariant dates s) :
    bucketInvariant dates (dayStep p draws s d) := by
  obtain ⟨c1, c2, c3, c4, c5, c6, c7, c8, c9⟩ := dayStep_commit p draws s d
  have hiter := iterate_preserve
    (fun x : ℚ × SimState => bucketInvariant dates x.2)
    (tradeStep p draws d)
    (fun x hx => tradeStep_bucketInvariant p draws dates d hd x hx)
    p.tradesPerDay (s.runningEquity, s) hs
  obtain ⟨i1, i2, i3, i4, i5⟩ := hiter
  refine ⟨?_, ?_, ?_, ?_, ?_⟩
  · rw [c5]; exact i1
  · rw [c5, c4]; exact i2
  · rw [c6]; exact i3
  · rw [c6, c4]; exact i4
  · intro d' hd'
    rw [c5, c6]
    exact i5 d' hd'

theorem initState_monthlyStats (p : SimulationSettings) :
    (initState p).monthlyStats =
      initBuckets ((generateDates p.startDate p.endDate).map (fun d => d.month)) :=
  rfl

theorem initState_weeklyStats (p : SimulationSettings) :
    (initState p).weeklyStats =
      initBuckets ((generateDates p.startDate p.endDate).map (fun d => d.week)) :=
  rfl

theorem initBuckets_flat (keys : List String) :
    ((initBuckets keys).all fun b => b.wins + b.losses == b.trades) = true ∧
    ((initBuckets keys).map fun b => b.trades).sum = 0 := by
  constructor
  · rw [List.all_eq_true]
    intro b hb
    obtain ⟨hw, hl, hp, ht⟩ := initBuckets_zero keys b hb
    simp [hw, hl, ht]
  · refine List.sum_eq_zero ?_
    intro x hx
    obtain ⟨b, hb, rfl⟩ := List.mem_map.mp hx
    exact (initBuckets_zero keys b hb).2.2.2

theorem initState_bucketInvariant (p : SimulationSettings) :
    bucketInvariant (generateDates p.startDate p.endDate) (initState p) := by
  refine ⟨?_, ?_, ?_, ?_, ?_⟩
  · rw [initState_monthlyStats]
    exact (initBuckets_flat _).1
  · rw [initState_monthlyStats]
    exact (initBuckets_flat _).2
  · rw [initState_weeklyStats]
    exact (initBuckets_flat _).1
  · rw [initState_weeklyStats]
    exact (initBuckets_flat _).2
  · intro d hd
    rw [initState_monthlyStats, initState_weeklyStats]
    exact ⟨(hasKey_initBuckets _ _).mpr (List.mem_map_of_mem _ hd),
      (hasKey_initBuckets _ _).mpr (List.mem_map_of_mem _ hd)⟩

theorem runState_bucketInvariant (p : SimulationSettings) (draws : ℕ → ℚ) :
    bucketInvariant (generateDates p.startDate p.endDate) (runState p draws) :=
  foldl_preserve_mem (bucketInvariant (generateDates p.startDate p.endDate))
    (dayStep p draws) (generateDates p.startDate p.endDate) (initState p)
    (fun d hd s' hs' =>
      dayStep_bucketInvariant p draws (generateDates p.startDate p.endDate)
        d hd s' hs')
    (initState_bucketInvariant p)

/-- C4: in the reported breakdowns every monthly and every weekly bucket
satisfies wins + losses = trades, and the bucket trade counts sum to the
total trade count of the summary, independently for the monthly buckets and for
the weekly buckets. -/
theorem c4_bucket_consistency (p : SimulationSettings) (draws : ℕ → ℚ) :
    ((runSummary p draws).monthlyBreakdown.all
      fun b => b.wins + b.losses == b.trades) = true ∧
    (((runSummary p draws).monthlyBreakdown.map fun b => b.trades).sum =
      (runSummary p draws).totalTrades) ∧
    ((runSummary p draws).weeklyBreakdown.all
      fun b => b.wins + b.losses == b.trades) = true ∧
    (((runSummary p draws).weeklyBreakdown.map fun b => b.trades).sum =
      (runSummary p draws).totalTrades) := by
  obtain ⟨h1, h2, h3, h4, h5⟩ := runState_bucketInvariant p draws
  rw [runSummary_monthlyBreakdown, runSummary_weeklyBreakdown,
    runSummary_totalTrades]
  refine ⟨?_, ?_, ?_, ?_⟩
  · simp only [List.all_eq_true, List.mem_map]
    rintro x ⟨b, hb, rfl⟩
    exact List.all_eq_true.mp h1 b hb
  · simp only [List.map_map]
    exact h2
  · simp only [List.all_eq_true, List.mem_map]
    rintro x ⟨b, hb, rfl⟩
    exact List.all_eq_true.mp h3 b hb
  · simp only [List.map_map]
    exact h4

theorem hasKey_mem_bucketKeys (l : List BucketStats) (k : String) :
    hasKey l k = true ↔ k ∈ bucketKeys l := by
  rw [hasKey_iff]
  simp [bucketKeys]

theorem find?_isSome_of_hasKey (l : List BucketStats) (k : String)
    (h : hasKey l k = true) :
    ∃ b, l.find? (fun b => b.key == k) = some b ∧ b ∈ l ∧ b.key = k := by
  obtain ⟨b0, hb0, hk0⟩ := (hasKey_iff l k).mp h
  have hsome : (l.find? (fun b => b.key == k)).isSome := by
    rw [List.find?_isSome]
    exact ⟨b0, hb0, by simp [hk0]⟩
  obtain ⟨b, hb⟩ := Option.isSome_iff_exists.mp hsome
  refine ⟨b, hb, List.mem_of_find?_eq_some hb, ?_⟩
  have := List.find?_some hb
  simpa using this

theorem tradesOf_updateBucket_self (k : String) (g : BucketStats → BucketStats)
    (hg : ∀ b, (g b).key = b.key) (hgt : ∀ b, (g b).trades = b.trades + 1)
    (l : List BucketStats) (hk : hasKey l k = true) :
    tradesOf (updateBucket k g l) k = tradesOf l k + 1 := by
  obtain ⟨b, hb, _, _⟩ := find?_isSome_of_hasKey l k hk
  unfold tradesOf
  rw [find?_updateBucket_self k g hg l, hb]
  simp [hgt]

theorem tradesOf_updateBucket_other (k k' : String) (hkk : k' ≠ k)
    (g : BucketStats → BucketStats) (hg : ∀ b, (g b).key = b.key)
    (l : List BucketStats) :
    tradesOf (updateBucket k g l) k' = tradesOf l k' := by
  unfold tradesOf
  rw [find?_updateBucket_other k k' hkk g hg l]

theorem tradeStep_hasKey (p : SimulationSettings) (draws : ℕ → ℚ)
    (d : DateInfo) (x : ℚ × SimState) (k : String) :
    hasKey (tradeStep p draws d x).2.monthlyStats k =
      hasKey x.2.monthlyStats k ∧
    hasKey (tradeStep p draws d x).2.weeklyStats k =
      hasKey x.2.weeklyStats k := by
  obtain ⟨_, hcase⟩ := tradeStep_buckets p draws d x
  rcases hcase with ⟨hm', hw'⟩ | ⟨hm', hw'⟩ <;> rw [hm', hw']
  · exact ⟨hasKey_updateBucket d.month k (winUpdate p) (fun b => rfl) _,
      hasKey_updateBucket d.week k (winUpdate p) (fun b => rfl) _⟩
  · exact ⟨hasKey_updateBucket d.month k (lossUpdate p) (fun b => rfl) _,
      hasKey_updateBucket d.week k (lossUpdate p) (fun b => rfl) _⟩

theorem tradeStep_tradesOf (p : SimulationSettings) (draws : ℕ → ℚ)
    (d : DateInfo) (x : ℚ × SimState)
    (hm : hasKey x.2.monthlyStats d.month = true)
    (hw : hasKey x.2.weeklyStats d.week = true) (k : String) :
    tradesOf (tradeStep p draws d x).2.monthlyStats k =
      tradesOf x.2.monthlyStats k + (if d.month = k then 1 else 0) ∧
    tradesOf (tradeStep p draws d x).2.weeklyStats k =
      tradesOf x.2.weeklyStats k + (if d.week = k then 1 else 0) := by
  obtain ⟨_, hcase⟩ := tradeStep_buckets p draws d x
  have main : ∀ (g : BucketStats → BucketStats), (∀ b, (g b).key = b.key) →
      (∀ b, (g b).trades = b.trades + 1) →
      ∀ (key0 : String) (l : List BucketStats), hasKey l key0 = true →
      tradesOf (updateBucket key0 g l) k =
        tradesOf l k + (if key0 = k then 1 else 0) := by
    intro g hg hgt key0 l hl
    by_cases hkk : key0 = k
    · subst hkk
      rw [if_pos rfl]
      exact tradesOf_updateBucket_self key0 g hg hgt l hl
    · rw [if_neg hkk]
      exact tradesOf_updateBucket_other key0 k (fun hc => hkk hc.symm) g hg l
  rcases hcase with ⟨hm', hw'⟩ | ⟨hm', hw'⟩ <;> rw [hm', hw']
  · exact ⟨main (winUpdate p) (fun b => rfl) (fun b => rfl) d.month _ hm,
      main (winUpdate p) (fun b => rfl) (fun b => rfl) d.week _ hw⟩
  · exact ⟨main (lossUpdate p) (fun b => rfl) (fun b => rfl) d.month _ hm,
      main (lossUpdate p) (fun b => rfl) (fun b => rfl) d.week _ hw⟩

theorem iterate_tradesOf (p : SimulationSettings) (draws : ℕ → ℚ)
    (d : DateInfo) (k : String) :
    ∀ (j : ℕ) (x : ℚ × SimState),
      hasKey x.2.monthlyStats d.month = true →
      hasKey x.2.weeklyStats d.week = true →
      (tradesOf ((tradeStep p draws d)^[j] x).2.monthlyStats k =
        tradesOf x.2.monthlyStats k + (if d.month = k then j else 0) ∧
       tradesOf ((tradeStep p draws d)^[j] x).2.weeklyStats k =
        tradesOf x.2.weeklyStats k + (if d.week = k then j else 0)) ∧
      (hasKey ((tradeStep p draws d)^[j] x).2.monthlyStats d.month = true ∧
       hasKey ((tradeStep p draws d)^[j] x).2.weeklyStats d.week = true) := by
  intro j
  induction j with
  | zero =>
      intro x hm hw
      simp [hm, hw]
  | succ j ih =>
      intro x hm hw
      obtain ⟨⟨im, iw⟩, ikm, ikw⟩ := ih x hm hw
      rw [Function.iterate_succ_apply']
      obtain ⟨tm, tw⟩ :=
        tradeStep_tradesOf p draws d ((tradeStep p draws d)^[j] x) ikm ikw k
      obtain ⟨km, kw⟩ :=
        tradeStep_hasKey p draws d ((tradeStep p draws d)^[j] x) d.month
      obtain ⟨km', kw'⟩ :=
        tradeStep_hasKey p draws d ((tradeStep p draws d)^[j] x) d.week
      refine ⟨⟨?_, ?_⟩, ?_, ?_⟩
      · rw [tm, im]
        split <;> omega
      · rw [tw, iw]
        split <;> omega
      · rw [km]
        exact ikm
      · rw [kw']
        exact ikw

theorem dayStep_tradesOf (p : SimulationSettings) (draws : ℕ → ℚ)
    (s : SimState) (d : DateInfo)
    (hm : hasKey s.monthlyStats d.month = true)
    (hw : hasKey s.weeklyStats d.week = true) (k : String) :
    tradesOf (dayStep p draws s d).monthlyStats k =
      tradesOf s.monthlyStats k +
        (if d.month = k then p.tradesPerDay else 0) ∧
    tradesOf (dayStep p draws s d).weeklyStats k =
      tradesOf s.weeklyStats k + (if d.week = k then p.tradesPerDay else 0) := by
  obtain ⟨c1, c2, c3, c4, c5, c6, c7, c8, c9⟩ := dayStep_commit p draws s d
  obtain ⟨⟨im, iw⟩, _, _⟩ :=
    iterate_tradesOf p draws d k p.tradesPerDay (s.runningEquity, s) hm hw
  exact ⟨by rw [c5]; exact im, by rw [c6]; exact iw⟩

theorem dayStep_hasKey (p : SimulationSettings) (draws : ℕ → ℚ)
    (s : SimState) (d : DateInfo) (k : String) :
    hasKey (dayStep p draws s d).monthlyStats k = hasKey s.monthlyStats k ∧
    hasKey (dayStep p draws s d).weeklyStats k = hasKey s.weeklyStats k := by
  obtain ⟨c1, c2, c3, c4, c5, c6, c7, c8, c9⟩ := dayStep_commit p draws s d
  have hiter : ∀ (j : ℕ) (x : ℚ × SimState),
      hasKey ((tradeStep p draws d)^[j] x).2.monthlyStats k =
        hasKey x.2.monthlyStats k ∧
      hasKey ((tradeStep p draws d)^[j] x).2.weeklyStats k =
        hasKey x.2.weeklyStats k := by
    intro j
    induction j with
    | zero => intro x; simp
    | succ j ih =>
        intro x
        rw [Function.iterate_succ_apply']
        obtain ⟨km, kw⟩ := tradeStep_hasKey p draws d ((tradeStep p draws d)^[j] x) k
        obtain ⟨im, iw⟩ := ih x
        exact ⟨km.trans im, kw.trans iw⟩
  obtain ⟨im, iw⟩ := hiter p.tradesPerDay (s.runningEquity, s)
  exact ⟨by rw [c5]; exact im, by rw [c6]; exact iw⟩

theorem foldl_tradesOf (p : SimulationSettings) (draws : ℕ → ℚ) (k : String) :
    ∀ (l : List DateInfo) (s : SimState),
      (∀ d ∈ l, hasKey s.monthlyStats d.month = true ∧
        hasKey s.weeklyStats d.week = true) →
      tradesOf ((l.foldl (dayStep p draws) s)).monthlyStats k =
        tradesOf s.monthlyStats k +
          p.tradesPerDay * ((l.filter (fun d => d.month == k)).length) ∧
      tradesOf ((l.foldl (dayStep p draws) s)).weeklyStats k =
        tradesOf s.weeklyStats k +
          p.tradesPerDay * ((l.filter (fun d => d.week == k)).length) := by
  intro l
  induction l with
  | nil =>
      intro s _
      simp
  | cons d t ih =>
      intro s hpres
      obtain ⟨hm, hw⟩ := hpres d (List.mem_cons_self d t)
      obtain ⟨dm, dw⟩ := dayStep_tradesOf p draws s d hm hw k
      have hpres' : ∀ d' ∈ t, hasKey (dayStep p draws s d).monthlyStats d'.month = true ∧
          hasKey (dayStep p draws s d).weeklyStats d'.week = true := by
        intro d' hd'
        obtain ⟨e1, e2⟩ := dayStep_hasKey p draws s d d'.month
        obtain ⟨e3, e4⟩ := dayStep_hasKey p draws s d d'.week
        obtain ⟨f1, f2⟩ := hpres d' (List.mem_cons_of_mem d hd')
        exact ⟨e1.trans f1, e4.trans f2⟩
      obtain ⟨tm, tw⟩ := ih (dayStep p draws s d) hpres'
      simp only [List.foldl_cons]
      constructor
      · rw [tm, dm, List.filter_cons]
        by_cases hdk : d.month = k
        · rw [if_pos hdk]
          simp only [hdk]
          simp
          ring
        · rw [if_neg hdk]
          have : (d.month == k) = false := by simpa using hdk
          simp [this]
      · rw [tw, dw, List.filter_cons]
        by_cases hdk : d.week = k
        · rw [if_pos hdk]
          simp only [hdk]
          simp
          ring
        · rw [if_neg hdk]
          have : (d.week == k) = false := by simpa using hdk
          simp [this]

theorem tradesOf_initBuckets (keys : List String) (k : String) :
    tradesOf (initBuckets keys) k = 0 := by
  unfold tradesOf
  cases hfind : (initBuckets keys).find? (fun b => b.key == k) with
  | none => rfl
  | some b =>
      have hb := List.mem_of_find?_eq_some hfind
      simp [(initBuckets_zero keys b hb).2.2.2]

theorem runState_bucketKeys (p : SimulationSettings) (draws : ℕ → ℚ) :
    bucketKeys (runState p draws).monthlyStats =
      bucketKeys (initState p).monthlyStats ∧
    bucketKeys (runState p draws).weeklyStats =
      bucketKeys (initState p).weeklyStats := by
  refine foldl_preserve
    (fun s : SimState =>
      bucketKeys s.monthlyStats = bucketKeys (initState p).monthlyStats ∧
      bucketKeys s.weeklyStats = bucketKeys (initState p).weeklyStats)
    (dayStep p draws) ?_ (generateDates p.startDate p.endDate) (initState p)
    ⟨rfl, rfl⟩
  intro s d hs
  obtain ⟨c1, c2, c3, c4, c5, c6, c7, c8, c9⟩ := dayStep_commit p draws s d
  have hiter : ∀ (j : ℕ) (x : ℚ × SimState),
      bucketKeys ((tradeStep p draws d)^[j] x).2.monthlyStats =
        bucketKeys x.2.monthlyStats ∧
      bucketKeys ((tradeStep p draws d)^[j] x).2.weeklyStats =
        bucketKeys x.2.weeklyStats := by
    intro j
    induction j with
    | zero => intro x; simp
    | succ j ih =>
        intro x
        rw [Function.iterate_succ_apply']
        obtain ⟨_, hcase⟩ :=
          tradeStep_buckets p draws d ((tradeStep p draws d)^[j] x)
        obtain ⟨im, iw⟩ := ih x
        rcases hcase with ⟨hm', hw'⟩ | ⟨hm', hw'⟩ <;> rw [hm', hw']
        · exact ⟨(updateBucket_keys d.month (winUpdate p) (fun b => rfl) _).trans im,
            (updateBucket_keys d.week (winUpdate p) (fun b => rfl) _).trans iw⟩
        · exact ⟨(updateBucket_keys d.month (lossUpdate p) (fun b => rfl) _).trans im,
            (updateBucket_keys d.week (lossUpdate p) (fun b => rfl) _).trans iw⟩
  obtain ⟨im, iw⟩ := hiter p.tradesPerDay (s.runningEquity, s)
  exact ⟨by rw [c5, im]; exact hs.1, by rw [c6, iw]; exact hs.2⟩

theorem nodup_of_bucketKeys {l l' : List BucketStats}
    (h : bucketKeys l = bucketKeys l')
    (h' : l'.Pairwise (fun a b => a.key ≠ b.key)) :
    l.Pairwise (fun a b => a.key ≠ b.key) := by
  have hp : (bucketKeys l').Pairwise (fun a b => a ≠ b) := by
    unfold bucketKeys
    rw [List.pairwise_map]
    exact h'
  rw [← h] at hp
  unfold bucketKeys at hp
  rw [List.pairwise_map] at hp
  exact hp

theorem runState_tradesOf (p : SimulationSettings) (draws : ℕ → ℚ) (k : String) :
    tradesOf (runState p draws).monthlyStats k =
      p.tradesPerDay * countDaysMonth p k ∧
    tradesOf (runState p draws).weeklyStats k =
      p.tradesPerDay * countDaysWeek p k := by
  have hpres : ∀ d ∈ generateDates p.startDate p.endDate,
      hasKey (initState p).monthlyStats d.month = true ∧
      hasKey (initState p).weeklyStats d.week = true := by
    intro d hd
    rw [initState_monthlyStats, initState_weeklyStats]
    exact ⟨(hasKey_initBuckets _ _).mpr (List.mem_map_of_mem _ hd),
      (hasKey_initBuckets _ _).mpr (List.mem_map_of_mem _ hd)⟩
  obtain ⟨hm, hw⟩ := foldl_tradesOf p draws k
    (generateDates p.startDate p.endDate) (initState p) hpres
  constructor
  · show tradesOf ((generateDates p.startDate p.endDate).foldl
      (dayStep p draws) (initState p)).monthlyStats k = _
    rw [hm, initState_monthlyStats, tradesOf_initBuckets]
    simp [countDaysMonth]
  · show tradesOf ((generateDates p.startDate p.endDate).foldl
      (dayStep p draws) (initState p)).weeklyStats k = _
    rw [hw, initState_weeklyStats, tradesOf_initBuckets]
    simp [countDaysWeek]

theorem runState_monthly_mem (p : SimulationSettings) (draws : ℕ → ℚ)
    (b : BucketStats) (hb : b ∈ (runState p draws).monthlyStats) :
    b.trades = p.tradesPerDay * countDaysMonth p b.key ∧
    countDaysMonth p b.key ≠ 0 := by
  have hnd : (runState p draws).monthlyStats.Pairwise
      (fun a b => a.key ≠ b.key) := by
    refine nodup_of_bucketKeys (runState_bucketKeys p draws).1 ?_
    rw [initState_monthlyStats]
    exact initBuckets_nodup _
  have hfind := find?_of_mem_nodup _ hnd b hb
  have htr : tradesOf (runState p draws).monthlyStats b.key = b.trades := by
    unfold tradesOf
    rw [hfind]
    rfl
  constructor
  · rw [← htr]
    exact (runState_tradesOf p draws b.key).1
  · have hkmem : b.key ∈ bucketKeys (runState p draws).monthlyStats :=
      List.mem_map_of_mem _ hb
    rw [(runState_bucketKeys p draws).1, initState_monthlyStats] at hkmem
    have hhk : hasKey
        (initBuckets ((generateDates p.startDate p.endDate).map
          (fun d => d.month))) b.key = true :=
      (hasKey_mem_bucketKeys _ _).mpr hkmem
    obtain ⟨d, hd, hdk⟩ := List.mem_map.mp ((hasKey_initBuckets _ _).mp hhk)
    have hmemf : d ∈ (generateDates p.startDate p.endDate).filter
        (fun d => d.month == b.key) := by
      rw [List.mem_filter]
      exact ⟨hd, by simp [hdk]⟩
    unfold countDaysMonth
    exact Nat.pos_iff_ne_zero.mp (List.length_pos.mpr
      (List.ne_nil_of_mem hmemf))

theorem runState_weekly_mem (p : SimulationSettings) (draws : ℕ → ℚ)
    (b : BucketStats) (hb : b ∈ (runState p draws).weeklyStats) :
    b.trades = p.tradesPerDay * countDaysWeek p b.key ∧
    countDaysWeek p b.key ≠ 0 := by
  have hnd : (runState p draws).weeklyStats.Pairwise
      (fun a b => a.key ≠ b.key) := by
    refine nodup_of_bucketKeys (runState_bucketKeys p draws).2 ?_
    rw [initState_weeklyStats]
    exact initBuckets_nodup _
  have hfind := find?_of_mem_nodup _ hnd b hb
  have htr : tradesOf (runState p draws).weeklyStats b.key = b.trades := by
    unfold tradesOf
    rw [hfind]
    rfl
  constructor
  · rw [← htr]
    exact (runState_tradesOf p draws b.key).2
  · have hkmem : b.key ∈ bucketKeys (runState p draws).weeklyStats :=
      List.mem_map_of_mem _ hb
    rw [(runState_bucketKeys p draws).2, initState_weeklyStats] at hkmem
    have hhk : hasKey
        (initBuckets ((generateDates p.startDate p.endDate).map
          (fun d => d.week))) b.key = true :=
      (hasKey_mem_bucketKeys _ _).mpr hkmem
    obtain ⟨d, hd, hdk⟩ := List.mem_map.mp ((hasKey_initBuckets _ _).mp hhk)
    have hmemf : d ∈ (generateDates p.startDate p.endDate).filter
        (fun d => d.week == b.key) := by
      rw [List.mem_filter]
      exact ⟨hd, by simp [hdk]⟩
    unfold countDaysWeek
    exact Nat.pos_iff_ne_zero.mp (List.length_pos.mpr
      (List.ne_nil_of_mem hmemf))

/-- C10: every reported monthly and weekly bucket corresponds to at least
one trading day, its trade count is trades-per-day times the number of
trading days mapping to its key, and (for a positive trades-per-day
setting, as the valid ranges require) no reported bucket has zero trades —
so the per-bucket "no decided trades" fallback never fires for a bucket
that exists. -/
theorem c10_bucket_day_counts (p : SimulationSettings) (draws : ℕ → ℚ) :
    ((runSummary p draws).monthlyBreakdown.all fun b =>
      (countDaysMonth p b.key != 0) &&
        (b.trades == p.tradesPerDay * countDaysMonth p b.key)) = true ∧
    ((runSummary p draws).weeklyBreakdown.all fun b =>
      (countDaysWeek p b.key != 0) &&
        (b.trades == p.tradesPerDay * countDaysWeek p b.key)) = true ∧
    (0 < p.tradesPerDay →
      (((runSummary p draws).monthlyBreakdown.all fun b => b.trades != 0) = true ∧
       ((runSummary p draws).weeklyBreakdown.all fun b => b.trades != 0) = true)) := by
  rw [runSummary_monthlyBreakdown, runSummary_weeklyBreakdown]
  refine ⟨?_, ?_, ?_⟩
  · simp only [List.all_eq_true, List.mem_map]
    rintro x ⟨b, hb, rfl⟩
    obtain ⟨h1, h2⟩ := runState_monthly_mem p draws b hb
    show ((countDaysMonth p b.key != 0) &&
      (b.trades == p.tradesPerDay * countDaysMonth p b.key)) = true
    simp [h1, h2]
  · simp only [List.all_eq_true, List.mem_map]
    rintro x ⟨b, hb, rfl⟩
    obtain ⟨h1, h2⟩ := runState_weekly_mem p draws b hb
    show ((countDaysWeek p b.key != 0) &&
      (b.trades == p.tradesPerDay * countDaysWeek p b.key)) = true
    simp [h1, h2]
  · intro htpd
    constructor
    · simp only [List.all_eq_true, List.mem_map]
      rintro x ⟨b, hb, rfl⟩
      obtain ⟨h1, h2⟩ := runState_monthly_mem p draws b hb
      show (b.trades != 0) = true
      rw [h1]
      simpa using Nat.mul_ne_zero (by omega) h2
    · simp only [List.all_eq_true, List.mem_map]
      rintro x ⟨b, hb, rfl⟩
      obtain ⟨h1, h2⟩ := runState_weekly_mem p draws b hb
      show (b.trades != 0) = true
      rw [h1]
      simpa using Nat.mul_ne_zero (by omega) h2

/-- Witness for C10 on a concrete run. -/
theorem c10_witness :
    (((runSummary pSpec8 allLossDraws).monthlyBreakdown.all
      fun b => b.trades != 0) = true ∧
     ((runSummary pSpec8 allLossDraws).weeklyBreakdown.all
      fun b => b.trades != 0) = true) :=
  (c10_bucket_day_counts pSpec8 allLossDraws).2.2 (by decide)

end TradingSim
